import Mathlib

/-!
go-metrics-logstash: documents built from metrics and the flush protocol.

A shallow embedding of `measures.go` and `reporter.go`.

* A Go `map[string]interface{}` is an association list with at most one entry per key;
  `mapIndex` is the read `m[k]`, `mapAssign` is the write `m[k] = v`.  A nil map and an
  empty map are both `[]` (ranging over either visits nothing).  A map given as input
  (the default values) comes with the hypothesis that its keys are pairwise distinct.
* Strings are sequences of characters.  The byte `.` occurs in a UTF-8 string only as the
  character `.`, so splitting and replacing by character is splitting and replacing by
  byte.
* `float64` is a type parameter `F`; its arithmetic, the conversions used by
  `time.Duration(x).Seconds()` and the `%g` verb are fields of `Float64Ops F`.  The general
  theorems hold for every `F` and every `Float64Ops F`.  `Float64` and `float64Ops` are the
  binary64 numbers and their operations, used for the statements at concrete inputs.
* `int64` values are never combined arithmetically by this package; they are `Int`.
* The metric objects of `github.com/rcrowley/go-metrics` are records of the values their
  methods return.  `json.Marshal` and `Conn.Write` are the fields of a `Transport`.
* `FlushEach` does not return by itself; it is given by its course over the ticks the
  ticker has delivered so far (`EachState`).  At a tick `FlushOnce` either runs to completion
  on the registry content of that moment or panics; where the panic is raised (while the
  measures are built, or at which measure of the send loop) is part of the tick.
-/

namespace Logstash

/-! ## Values and maps -/

/-- The dynamic values (`interface{}`) a document can hold: a string, an `int64`, a
`float64`, a nested `map[string]interface{}`, or any other Go value (identified by a tag). -/
inductive Value (F : Type) where
  | str (s : String)
  | int (i : Int)
  | float (x : F)
  | obj (m : List (String × Value F))
  | other (tag : Nat)

/-- The Go type `map[string]interface{}`. -/
abbrev Doc (F : Type) := List (String × Value F)

/-- The Go type `Measure` (`type Measure map[string]interface{}`). -/
abbrev Measure (F : Type) := Doc F

/-- The map read `m[k]`, with `none` for an absent key. -/
def mapIndex {V : Type} : List (String × V) → String → Option V
  | [], _ => none
  | (k', v) :: rest, k => if k' = k then some v else mapIndex rest k

/-- The map write `m[k] = v`: replaces the entry of `k` if there is one, adds one otherwise. -/
def mapAssign {V : Type} : List (String × V) → String → V → List (String × V)
  | [], k, v => [(k, v)]
  | (k', v') :: rest, k, v => if k' = k then (k, v) :: rest else (k', v') :: mapAssign rest k v

/-- The keys of a map. -/
def mapKeys {V : Type} (m : List (String × V)) : List String := m.map Prod.fst

/-! ## `strings.Split`, `strings.Replace`, `fmt.Sprintf` -/

/-- The loop of `strings.Split(s, sep)` for a one-character separator: `cur` holds (reversed)
the characters read since the last separator. -/
def splitLoop (sep : Char) : List Char → List Char → List (List Char)
  | cur, [] => [cur.reverse]
  | cur, c :: cs => if c = sep then cur.reverse :: splitLoop sep [] cs else splitLoop sep (c :: cur) cs

/-- Go `strings.Split(s, sep)` for a one-character separator. -/
def Split (s : String) (sep : Char) : List String :=
  (splitLoop sep [] s.data).map String.mk

/-- Go `strings.Replace(s, old, new, -1)` for one-character `old` and `new`. -/
def Replace (s : String) (old new : Char) : String :=
  String.mk (s.data.map fun c => if c = old then new else c)

/-- Go `fmt.Sprintf("identifier%d", i)` for a slice index `i`. -/
def identifierKey (i : Nat) : String := "identifier" ++ toString i

/-! ## `measures.go` -/

/-- Go `NewMeasure(name, defaultValues)`. -/
def NewMeasure {F : Type} (name : String) (defaultValues : Doc F) : Measure F :=
  let m : Measure F := []
  let m := (Split name '.').enum.foldl
    (fun m ie => mapAssign m (identifierKey ie.1) (Value.str ie.2)) m
  defaultValues.foldl (fun m kv => mapAssign m kv.1 kv.2) m

/-- The `float64` operations and library calls used by `measures.go`. -/
structure Float64Ops (F : Type) where
  /-- The product `x * y` of two `float64`. -/
  mul : F → F → F
  /-- The `float64` value of an integer constant (`100`, `1000`). -/
  ofInt : Int → F
  /-- The conversion `time.Duration(x)` of a `float64` to `int64` nanoseconds. -/
  toInt64 : F → Int
  /-- Go `time.Duration.Seconds`: a duration as a floating number of seconds. -/
  seconds : Int → F
  /-- The text `fmt` produces for a `float64` under the verb `%g`. -/
  fmtG : F → String

/-- A `metrics.Counter`: the value returned by `Count()`. -/
structure Counter where
  Count : Int

/-- A `metrics.Gauge`: the value returned by `Value()`. -/
structure Gauge where
  Value : Int

/-- A `metrics.GaugeFloat64`: the value returned by `Value()`. -/
structure GaugeFloat64 (F : Type) where
  Value : F

/-- What the methods of a histogram snapshot return. -/
structure HistogramSnapshot (F : Type) where
  Count : Int
  Max : Int
  Min : Int
  Mean : F
  StdDev : F
  Variance : F
  Percentile : F → F

/-- A `metrics.Histogram`: the snapshot returned by `Snapshot()`. -/
structure Histogram (F : Type) where
  Snapshot : HistogramSnapshot F

/-- What the methods of a meter snapshot return. -/
structure MeterSnapshot (F : Type) where
  Count : Int
  Rate1 : F
  Rate5 : F
  Rate15 : F
  RateMean : F

/-- A `metrics.Meter`: the snapshot returned by `Snapshot()`. -/
structure Meter (F : Type) where
  Snapshot : MeterSnapshot F

/-- What the methods of a timer snapshot used by `AddTimer` return. -/
structure TimerSnapshot (F : Type) where
  Count : Int
  Max : Int
  Min : Int
  Mean : F
  StdDev : F
  Variance : F
  Percentile : F → F

/-- A `metrics.Timer`: the snapshot returned by `Snapshot()`. -/
structure Timer (F : Type) where
  Snapshot : TimerSnapshot F

/-- The key of a percentile:
`strings.Replace(fmt.Sprintf("p%g", p*100), ".", "_", -1)`. -/
def pStr {F : Type} (ops : Float64Ops F) (p : F) : String :=
  Replace ("p" ++ ops.fmtG (ops.mul p (ops.ofInt 100))) '.' '_'

/-- The value `AddTimer` stores for a percentile:
`time.Duration(ms.Percentile(p)).Seconds() * 1000`. -/
def duration {F : Type} (ops : Float64Ops F) (ms : TimerSnapshot F) (p : F) : F :=
  ops.mul (ops.seconds (ops.toInt64 (ms.Percentile p))) (ops.ofInt 1000)

/-- The local map `t` of `AddTimer` when it is stored under `"timer"`. -/
def timerDoc {F : Type} (ops : Float64Ops F) (ms : TimerSnapshot F) (percentiles : List F) :
    Doc F :=
  let t : Doc F := []
  let t := mapAssign t "count" (.int ms.Count)
  let t := mapAssign t "max" (.int ms.Max)
  let t := mapAssign t "min" (.int ms.Min)
  let t := mapAssign t "mean" (.float ms.Mean)
  let t := mapAssign t "stddev" (.float ms.StdDev)
  let t := mapAssign t "var" (.float ms.Variance)
  percentiles.foldl (fun t p => mapAssign t (pStr ops p) (.float (duration ops ms p))) t

/-- Go `(*Measure).AddTimer`. -/
def AddTimer {F : Type} (ops : Float64Ops F) (m : Measure F) (timer : Timer F)
    (percentiles : List F) : Measure F :=
  let ms := timer.Snapshot
  let t := timerDoc ops ms percentiles
  let m := mapAssign m "kind" (.str "timer")
  mapAssign m "timer" (.obj t)

/-- The local map `me` of `AddMeter` when it is stored under `"meter"`. -/
def meterDoc {F : Type} (ms : MeterSnapshot F) : Doc F :=
  let me : Doc F := []
  let me := mapAssign me "count" (.int ms.Count)
  let me := mapAssign me "rate1" (.float ms.Rate1)
  let me := mapAssign me "rate5" (.float ms.Rate5)
  let me := mapAssign me "rate15" (.float ms.Rate15)
  mapAssign me "mean" (.float ms.RateMean)

/-- Go `(*Measure).AddMeter`. -/
def AddMeter {F : Type} (m : Measure F) (meter : Meter F) : Measure F :=
  let ms := meter.Snapshot
  let me := meterDoc ms
  let m := mapAssign m "kind" (.str "meter")
  mapAssign m "meter" (.obj me)

/-- The local map `h` of `AddHistogram` when it is stored under `"histogram"`. -/
def histogramDoc {F : Type} (ops : Float64Ops F) (ms : HistogramSnapshot F)
    (percentiles : List F) : Doc F :=
  let h : Doc F := []
  let h := mapAssign h "count" (.int ms.Count)
  let h := mapAssign h "max" (.int ms.Max)
  let h := mapAssign h "min" (.int ms.Min)
  let h := mapAssign h "mean" (.float ms.Mean)
  let h := mapAssign h "stddev" (.float ms.StdDev)
  let h := mapAssign h "var" (.float ms.Variance)
  percentiles.foldl (fun h p => mapAssign h (pStr ops p) (.float (ms.Percentile p))) h

/-- Go `(*Measure).AddHistogram`. -/
def AddHistogram {F : Type} (ops : Float64Ops F) (m : Measure F) (histogram : Histogram F)
    (percentiles : List F) : Measure F :=
  let ms := histogram.Snapshot
  let h := histogramDoc ops ms percentiles
  let m := mapAssign m "kind" (.str "histogram")
  mapAssign m "histogram" (.obj h)

/-- Go `(*Measure).AddGaugeFloat64`. -/
def AddGaugeFloat64 {F : Type} (m : Measure F) (gauge : GaugeFloat64 F) : Measure F :=
  let m := mapAssign m "kind" (.str "gauge64")
  mapAssign m "gauge64" (.float gauge.Value)

/-- Go `(*Measure).AddGauge`. -/
def AddGauge {F : Type} (m : Measure F) (gauge : Gauge) : Measure F :=
  let m := mapAssign m "kind" (.str "gauge")
  mapAssign m "gauge" (.int gauge.Value)

/-- Go `(*Measure).AddCounter`. -/
def AddCounter {F : Type} (m : Measure F) (counter : Counter) : Measure F :=
  let m := mapAssign m "kind" (.str "counter")
  mapAssign m "counter" (.int counter.Count)

/-! ## `reporter.go` -/

/-- A value held by the registry, by the case of the type switch of `FlushOnce` it takes.
(Each of the six interfaces declares `Snapshot()` with its own result type, so no value
implements two of them.)  `other` is a value of none of the six kinds. -/
inductive Metric (F : Type) where
  | counter (metric : Counter)
  | gauge (metric : Gauge)
  | gaugeFloat64 (metric : GaugeFloat64 F)
  | histogram (metric : Histogram F)
  | meter (metric : Meter F)
  | timer (metric : Timer F)
  | other (tag : Nat)

/-- The fields of `Reporter` other than the connection; `Registry` lists the registered
metrics in the order `Registry.Each` visits them. -/
structure Reporter (F : Type) where
  Registry : List (String × Metric F)
  DefaultValues : Doc F
  Version : String
  Percentiles : List F

/-- The two calls `FlushOnce` makes outside the package: `json.Marshal` (the payload, or
`none` when it returns an error) and `Conn.Write` on a connection in state `σ` (the next
state, and the error returned, `none` for nil). -/
structure Transport (F σ ε : Type) where
  Marshal : Measure F → Option String
  Write : σ → String → σ × Option ε

/-- The outcome of `FlushOnce`: the connection afterwards, the calls of `Conn.Write` made
(payload and error returned) in order, and the error returned by `FlushOnce`. -/
structure FlushResult (σ ε : Type) where
  conn : σ
  writes : List (String × Option ε)
  err : Option ε

/-- The callback `FlushOnce` passes to `Registry.Each`: the measure built for one metric. -/
def eachMeasure {F : Type} (ops : Float64Ops F) (r : Reporter F) (name : String)
    (i : Metric F) : Measure F :=
  let measure := NewMeasure name r.DefaultValues
  match i with
  | .counter metric => AddCounter measure metric
  | .gauge metric => AddGauge measure metric
  | .gaugeFloat64 metric => AddGaugeFloat64 measure metric
  | .histogram metric => AddHistogram ops measure metric r.Percentiles
  | .meter metric => AddMeter measure metric
  | .timer metric => AddTimer ops measure metric r.Percentiles
  | .other _ => measure

/-- The slice `measures` after `Registry.Each` returns. -/
def collectMeasures {F : Type} (ops : Float64Ops F) (r : Reporter F) : List (Measure F) :=
  r.Registry.foldl (fun measures ni => measures ++ [eachMeasure ops r ni.1 ni.2]) []

/-- The loop `for _, measure := range measures` of `FlushOnce`. -/
def sendLoop {F σ ε : Type} (tr : Transport F σ ε) : σ → List (Measure F) → FlushResult σ ε
  | conn, [] => ⟨conn, [], none⟩
  | conn, measure :: rest =>
    match tr.Marshal measure with
    | some data =>
      match tr.Write conn data with
      | (conn', some err) => ⟨conn', [(data, some err)], some err⟩
      | (conn', none) =>
        let res := sendLoop tr conn' rest
        ⟨res.conn, (data, none) :: res.writes, res.err⟩
    | none => sendLoop tr conn rest

/-- Go `(*Reporter).FlushOnce`. -/
def FlushOnce {F σ ε : Type} (ops : Float64Ops F) (tr : Transport F σ ε) (r : Reporter F)
    (conn : σ) : FlushResult σ ε :=
  sendLoop tr conn (collectMeasures ops r)

/-- What happens at one tick of the ticker of `FlushEach`, on the registry content of that
moment: `FlushOnce` runs to completion, or a panic with the value `rec` (`none` for a nil
value) is raised in it. The panic is raised either while the measures are built, before
any write (`sent = 0`), or in the send loop when measure number `sent` is marshalled,
after the loop has dealt with the `sent` measures before it. -/
inductive Tick (F P : Type) where
  | flush (registry : List (String × Metric F))
  | fault (registry : List (String × Metric F)) (sent : Nat) (rec : Option P)

/-- A report made by `FlushEach`: `log.Println(err)`, or `handlePanic(rec)`. -/
inductive Report (ε P : Type) where
  | error (err : ε)
  | fault (rec : P)

/-- The course of `FlushEach` so far: the connection, the reports made, the number of calls
of `FlushOnce` begun, and whether `FlushEach` has returned. -/
structure EachState (σ ε P : Type) where
  conn : σ
  reports : List (Report ε P)
  flushes : Nat
  returned : Bool

/-- Modelled from the spec: `handlePanic`, which is not among the sources, reports the fault
it is passed and returns. -/
def handlePanic {ε P : Type} (rec : P) : List (Report ε P) := [.fault rec]

/-- One tick of `FlushEach`. While the loop runs, `FlushOnce` is called and an error it
returns is printed. At a fault tick the send loop first deals with the measures before the
point of the panic: if one of those writes fails, `FlushOnce` returns that error and the
panic is not reached; otherwise the panic is raised, the writes made stay made, the
deferred function runs, `recover` stops the panic, `handlePanic` is called for a non-nil
value, and `FlushEach` returns. Once it has returned, later ticks do nothing. -/
def eachCycle {F σ ε P : Type} (ops : Float64Ops F) (tr : Transport F σ ε) (r : Reporter F)
    (st : EachState σ ε P) (tick : Tick F P) : EachState σ ε P :=
  if st.returned then st else
  match tick with
  | .flush registry =>
    let res := FlushOnce ops tr { r with Registry := registry } st.conn
    match res.err with
    | some err => ⟨res.conn, st.reports ++ [.error err], st.flushes + 1, false⟩
    | none => ⟨res.conn, st.reports, st.flushes + 1, false⟩
  | .fault registry sent rec =>
    let res := sendLoop tr st.conn
      ((collectMeasures ops { r with Registry := registry }).take sent)
    match res.err with
    | some err => ⟨res.conn, st.reports ++ [.error err], st.flushes + 1, false⟩
    | none =>
      match rec with
      | some v => ⟨res.conn, st.reports ++ handlePanic v, st.flushes + 1, true⟩
      | none => ⟨res.conn, st.reports, st.flushes + 1, true⟩

/-- Go `(*Reporter).FlushEach`, up to the ticks given. For `interval ≤ 0`, `time.Tick`
returns a nil channel and the loop waits forever without running a cycle; otherwise each
tick runs one cycle. The registry content of each cycle is that of its tick. -/
def FlushEach {F σ ε P : Type} (ops : Float64Ops F) (tr : Transport F σ ε) (r : Reporter F)
    (conn : σ) (interval : Int) (ticks : List (Tick F P)) : EachState σ ε P :=
  if interval ≤ 0 then ⟨conn, [], 0, false⟩
  else ticks.foldl (eachCycle ops tr r) ⟨conn, [], 0, false⟩

/-! ## `float64`

The IEEE 754 binary64 numbers with round-to-nearest-even arithmetic, the conversions
`float64(i)` and `int64(x)`, `time.Duration.Seconds`, and the `%g` verb (Go `strconv`:
shortest digits that read back as the same number, `%e` form for a decimal exponent below
`-4` or above `5`).  They instantiate `Float64Ops` for concrete inputs. -/

/-- A binary64 value: NaN, an infinity, or the finite number `(-1)^neg * m * 2^e`, where
`m < 2^53`, `-1074 ≤ e ≤ 971`, and `2^52 ≤ m` unless `e = -1074`. -/
inductive Float64 where
  | nan
  | inf (neg : Bool)
  | fin (neg : Bool) (m : Nat) (e : Int)
  deriving DecidableEq

/-- The number of binary digits of `n` (for `fuel ≥` that number). -/
def bitLength : Nat → Nat → Nat
  | 0, _ => 0
  | fuel + 1, n => if n = 0 then 0 else bitLength fuel (n / 2) + 1

/-- The integer `t` with `2^t ≤ n/d < 2^(t+1)`, for positive `n` and `d`. -/
def floorLog2 (n d : Nat) : Int :=
  let t : Int := (bitLength n n : Int) - (bitLength d d : Int)
  if (if 0 ≤ t then d * 2 ^ t.toNat ≤ n else d ≤ n * 2 ^ (-t).toNat) then t else t - 1

/-- The binary64 number nearest to `(-1)^neg * n/d` (`d > 0`), ties to the even mantissa;
an infinity past the largest finite number. -/
def roundRat (neg : Bool) (n d : Nat) : Float64 :=
  if n = 0 then .fin neg 0 (-1074) else
  let e : Int := max (floorLog2 n d - 52) (-1074)
  let num := if 0 ≤ e then n else n * 2 ^ (-e).toNat
  let den := if 0 ≤ e then d * 2 ^ e.toNat else d
  let q := num / den
  let rem := num % den
  let q := if den < 2 * rem ∨ (2 * rem = den ∧ q % 2 = 1) then q + 1 else q
  let e := if q = 2 ^ 53 then e + 1 else e
  let q := if q = 2 ^ 53 then 2 ^ 52 else q
  if 971 < e then .inf neg else .fin neg q e

/-- The binary64 number nearest to `(-1)^neg * m * 2^x`. -/
def roundDyadic (neg : Bool) (m : Nat) (x : Int) : Float64 :=
  if 0 ≤ x then roundRat neg (m * 2 ^ x.toNat) 1 else roundRat neg m (2 ^ (-x).toNat)

namespace Float64

/-- The product `x * y`. -/
def mul : Float64 → Float64 → Float64
  | .nan, _ => .nan
  | _, .nan => .nan
  | .inf s, .inf t => .inf (xor s t)
  | .inf s, .fin t m _ => if m = 0 then .nan else .inf (xor s t)
  | .fin s m _, .inf t => if m = 0 then .nan else .inf (xor s t)
  | .fin s m e, .fin t m' e' => roundDyadic (xor s t) (m * m') (e + e')

/-- The sum `x + y`. -/
def add : Float64 → Float64 → Float64
  | .nan, _ => .nan
  | _, .nan => .nan
  | .inf s, .inf t => if s = t then .inf s else .nan
  | .inf s, .fin _ _ _ => .inf s
  | .fin _ _ _, .inf t => .inf t
  | .fin s m e, .fin t m' e' =>
    if m = 0 ∧ m' = 0 then .fin (s && t) 0 (-1074)
    else if m = 0 then .fin t m' e'
    else if m' = 0 then .fin s m e
    else
      let x := min e e'
      let a : Int := (if s then -1 else 1) * (m * 2 ^ (e - x).toNat : Nat)
      let b : Int := (if t then -1 else 1) * (m' * 2 ^ (e' - x).toNat : Nat)
      let c := a + b
      if c = 0 then .fin false 0 (-1074) else roundDyadic (decide (c < 0)) c.natAbs x

/-- The quotient `x / y`. -/
def div : Float64 → Float64 → Float64
  | .nan, _ => .nan
  | _, .nan => .nan
  | .inf _, .inf _ => .nan
  | .inf s, .fin t _ _ => .inf (xor s t)
  | .fin s _ _, .inf t => .fin (xor s t) 0 (-1074)
  | .fin s m e, .fin t m' e' =>
    if m' = 0 then (if m = 0 then .nan else .inf (xor s t))
    else roundRat (xor s t) (m * 2 ^ (e - e').toNat) (m' * 2 ^ (e' - e).toNat)

/-- The conversion `float64(i)` of an integer. -/
def ofInt (i : Int) : Float64 :=
  roundRat (decide (i < 0)) i.natAbs 1

/-- The conversion `int64(x)`: the fraction is discarded; for NaN, the infinities and the
numbers outside `int64` the result is `-2^63` (the amd64 result; Go leaves it to the
implementation). -/
def toInt64 : Float64 → Int
  | .fin s m e =>
    let a : Nat := if 0 ≤ e then m * 2 ^ e.toNat else m / 2 ^ (-e).toNat
    let v : Int := if s then -(a : Int) else a
    if -(2 ^ 63 : Int) ≤ v ∧ v < 2 ^ 63 then v else -(2 ^ 63)
  | _ => -(2 ^ 63)

/-- Go `time.Duration.Seconds`: `float64(d / Second) + float64(d % Second) / 1e9`. -/
def seconds (d : Int) : Float64 :=
  let sec := Int.tdiv d 1000000000
  let nsec := Int.tmod d 1000000000
  add (ofInt sec) (div (ofInt nsec) (ofInt 1000000000))

end Float64

/-- Go `strconv`'s `decimal`: the digits `d` and the position `dp` of the decimal point,
for the number `0.d₁d₂… * 10^dp`. -/
structure Decimal where
  d : List Char
  dp : Int

namespace Decimal

/-- The number of digits. -/
def nd (a : Decimal) : Int := a.d.length

/-- Go `trim`: drops the trailing zeros. -/
def trim (a : Decimal) : Decimal :=
  let d := (a.d.reverse.dropWhile (· = '0')).reverse
  if d = [] then ⟨[], 0⟩ else ⟨d, a.dp⟩

/-- The exact decimal expansion of `m * 2^e`. -/
def ofDyadic (m : Nat) (e : Int) : Decimal :=
  let n := if 0 ≤ e then m * 2 ^ e.toNat else m * 5 ^ (-e).toNat
  if n = 0 then ⟨[], 0⟩ else
  let ds := Nat.toDigits 10 n
  trim ⟨ds, (ds.length : Int) - (if 0 ≤ e then 0 else -e)⟩

/-- The digit at index `i`, `'0'` outside the digits. -/
def digit (a : Decimal) (i : Int) : Char :=
  if 0 ≤ i then a.d.getD i.toNat '0' else '0'

/-- Go `(*decimal).RoundDown`. -/
def RoundDown (a : Decimal) (nd : Int) : Decimal :=
  if nd < 0 ∨ nd ≥ a.nd then a else trim ⟨a.d.take nd.toNat, a.dp⟩

/-- Go `(*decimal).RoundUp`. -/
def RoundUp (a : Decimal) (nd : Int) : Decimal :=
  if nd < 0 ∨ nd ≥ a.nd then a else
  match ((a.d.take nd.toNat).reverse.dropWhile (· = '9')) with
  | [] => ⟨['1'], a.dp + 1⟩
  | c :: cs => ⟨(Char.ofNat (c.toNat + 1) :: cs).reverse, a.dp⟩

/-- Go `shouldRoundUp`. -/
def shouldRoundUp (a : Decimal) (nd : Int) : Bool :=
  if nd < 0 ∨ nd ≥ a.nd then false
  else if a.digit nd = '5' ∧ nd + 1 = a.nd then
    decide (nd > 0) && ((a.digit (nd - 1)).toNat - 48) % 2 != 0
  else decide ((a.digit nd).toNat ≥ 53)

/-- Go `(*decimal).Round`. -/
def Round (a : Decimal) (nd : Int) : Decimal :=
  if nd < 0 ∨ nd ≥ a.nd then a
  else if shouldRoundUp a nd then a.RoundUp nd else a.RoundDown nd

end Decimal

/-- The digit loop of Go `roundShortest`, from index `ui` on. -/
def shortestLoop (d lower upper : Decimal) (inclusive : Bool) : Nat → Nat → Nat → Decimal
  | 0, _, _ => d
  | fuel + 1, ui, upperdelta =>
    let mi : Int := (ui : Int) - upper.dp + d.dp
    if mi ≥ d.nd then d else
    let li : Int := (ui : Int) - upper.dp + lower.dp
    let l := if 0 ≤ li ∧ li < lower.nd then lower.digit li else '0'
    let m := if 0 ≤ mi then d.digit mi else '0'
    let u := if (ui : Int) < upper.nd then upper.digit ui else '0'
    let okdown := l != m || (inclusive && li + 1 == lower.nd)
    let upperdelta :=
      if upperdelta = 0 ∧ m.toNat + 1 < u.toNat then 2
      else if upperdelta = 0 ∧ m ≠ u then 1
      else if upperdelta = 1 ∧ (m ≠ '9' ∨ u ≠ '0') then 2
      else upperdelta
    let okup := decide (upperdelta > 0) &&
      (inclusive || decide (upperdelta > 1) || decide ((ui : Int) + 1 < upper.nd))
    if okdown && okup then d.Round (mi + 1)
    else if okdown then d.RoundDown (mi + 1)
    else if okup then d.RoundUp (mi + 1)
    else shortestLoop d lower upper inclusive fuel (ui + 1) upperdelta

/-- Go `roundShortest` for binary64: the shortest decimal that reads back as
`mant * 2^(exp - 52)`, given its exact expansion `d`. -/
def roundShortest (d : Decimal) (mant : Nat) (exp : Int) : Decimal :=
  if mant = 0 then ⟨[], d.dp⟩ else
  let minexp : Int := -1022
  if exp > minexp ∧ 332 * (d.dp - d.nd) ≥ 100 * (exp - 52) then d else
  let upper := Decimal.ofDyadic (mant * 2 + 1) (exp - 52 - 1)
  let mantlo := if mant > 2 ^ 52 ∨ exp = minexp then mant - 1 else mant * 2 - 1
  let explo := if mant > 2 ^ 52 ∨ exp = minexp then exp else exp - 1
  let lower := Decimal.ofDyadic (mantlo * 2 + 1) (explo - 52 - 1)
  let inclusive := mant % 2 == 0
  shortestLoop d lower upper inclusive (d.d.length + 2) 0 0

/-- Go `%e` layout of `strconv`: `d.ddddde±dd`. -/
def fmtE (neg : Bool) (d : Decimal) (prec : Int) : String :=
  let sign := if neg then "-" else ""
  let first := if d.d = [] then '0' else d.d.getD 0 '0'
  let more : List Char :=
    if prec > 0 then
      let m := min d.nd (prec + 1)
      let ds := (d.d.take m.toNat).drop 1
      '.' :: (ds ++ List.replicate (prec.toNat - ds.length) '0')
    else []
  let exp : Int := if d.d = [] then 0 else d.dp - 1
  let esign := if exp < 0 then '-' else '+'
  let ex := exp.natAbs
  let edigits : List Char :=
    if ex < 10 then ['0', Char.ofNat (ex + 48)]
    else if ex < 100 then [Char.ofNat (ex / 10 + 48), Char.ofNat (ex % 10 + 48)]
    else [Char.ofNat (ex / 100 + 48), Char.ofNat (ex / 10 % 10 + 48), Char.ofNat (ex % 10 + 48)]
  sign ++ String.mk (first :: more ++ 'e' :: esign :: edigits)

/-- Go `%f` layout of `strconv`: `ddddd.ddddd`. -/
def fmtF (neg : Bool) (d : Decimal) (prec : Int) : String :=
  let sign := if neg then "-" else ""
  let intPart : List Char :=
    if d.dp > 0 then
      let m := min d.nd d.dp
      d.d.take m.toNat ++ List.replicate (d.dp - m).toNat '0'
    else ['0']
  let frac : List Char :=
    if prec > 0 then '.' :: (List.range prec.toNat).map (fun i => d.digit (d.dp + i)) else []
  sign ++ String.mk (intPart ++ frac)

/-- The text of a `float64` under the verb `%g` (shortest digits). -/
def Float64.fmtG : Float64 → String
  | .nan => "NaN"
  | .inf false => "+Inf"
  | .inf true => "-Inf"
  | .fin neg m e =>
    let digs := roundShortest (Decimal.ofDyadic m e) m (e + 52)
    let exp := digs.dp - 1
    if exp < -4 ∨ exp ≥ 6 then fmtE neg digs (digs.nd - 1)
    else fmtF neg digs (max (digs.nd - digs.dp) 0)

/-- The `float64` operations of Go. -/
def float64Ops : Float64Ops Float64 where
  mul := Float64.mul
  ofInt := Float64.ofInt
  toInt64 := Float64.toInt64
  seconds := Float64.seconds
  fmtG := Float64.fmtG

/-! ## Concrete inputs -/

/-- The constant `0.95`. -/
def p95 : Float64 := roundRat false 95 100

/-- The number `0.9500000000000001`, the `float64` that follows `0.95`. -/
def p95next : Float64 := .fin false 8556839292003943 (-53)

/-- The percentiles `NewReporter` sets: `0.50, 0.75, 0.95, 0.99, 0.999`. -/
def defaultPercentiles : List Float64 :=
  [roundRat false 50 100, roundRat false 75 100, p95, roundRat false 99 100,
   roundRat false 999 1000]

/-- The default values of the integration tests. -/
def testDefaults : Doc Float64 := [("client", .str "dummy-client"), ("metric", .str "doc")]

/-- Default values with entries for the keys `"kind"` and `"counter"`. -/
def kindDefaults : Doc Float64 :=
  [("client", .str "dummy-client"), ("kind", .str "doc"), ("counter", .int 0)]

/-- The Reporter of `TestFlushOnceKeepsPreviousValues`: a counter at 6 and a gauge at 8. -/
def testReporter : Reporter Float64 where
  Registry := [("dummycounter", .counter ⟨6⟩), ("dummygauge", .gauge ⟨8⟩)]
  DefaultValues := testDefaults
  Version := "1.0.1"
  Percentiles := defaultPercentiles

/-- The same Reporter with `kindDefaults` as default values. -/
def kindReporter : Reporter Float64 :=
  { testReporter with DefaultValues := kindDefaults }

/-- A Reporter whose second metric is a float gauge holding NaN. -/
def nanReporter : Reporter Float64 :=
  { testReporter with
    Registry := [("dummycounter", .counter ⟨6⟩), ("ratio", .gaugeFloat64 ⟨.nan⟩),
      ("dummygauge", .gauge ⟨8⟩)] }

/-- A stand-in for `json.Marshal`: an error for a float gauge holding NaN (which
`encoding/json` does not encode), else a payload listing the keys of the document. -/
def keysPayload (m : Measure Float64) : Option String :=
  match mapIndex m "gauge64" with
  | some (.float .nan) => none
  | _ => some (String.intercalate "," (mapKeys m))

/-- An open connection: every write succeeds; the state counts the datagrams sent. -/
def openConn : Transport Float64 Nat String where
  Marshal := keysPayload
  Write := fun sent _ => (sent + 1, none)

/-- A closed connection, as in `TestFlushOnceReturnsConnectionError`: every write fails. -/
def closedConn : Transport Float64 Nat String where
  Marshal := keysPayload
  Write := fun sent _ => (sent, some "use of closed network connection")

/-- A histogram snapshot of the values 1 and 2 whose percentile is 1 up to `0.95` and 2
above. -/
def stepHistogram : Histogram Float64 where
  Snapshot :=
    { Count := 2, Max := 2, Min := 1,
      Mean := roundRat false 3 2, StdDev := roundRat false 1 2, Variance := roundRat false 1 4,
      Percentile := fun p => if p = p95 then Float64.ofInt 1 else Float64.ofInt 2 }

/-- A timer snapshot of one and two seconds (in nanoseconds) whose percentile is one second
up to `0.95` and two seconds above. -/
def stepTimer : Timer Float64 where
  Snapshot :=
    { Count := 2, Max := 2000000000, Min := 1000000000,
      Mean := Float64.ofInt 1500000000, StdDev := Float64.ofInt 500000000,
      Variance := Float64.ofInt 250000000000000000,
      Percentile := fun p =>
        if p = p95 then Float64.ofInt 1000000000 else Float64.ofInt 2000000000 }

/-- The `float64` zero, `0.0`. -/
def Float64.zero : Float64 := .fin false 0 (-1074)

/-- The go-metrics `NilHistogram` of `TestAddHistogram`, whose snapshot is that of a histogram
without samples: every method returns zero. -/
def NilHistogram : Histogram Float64 where
  Snapshot :=
    { Count := 0, Max := 0, Min := 0,
      Mean := Float64.zero, StdDev := Float64.zero, Variance := Float64.zero,
      Percentile := fun _ => Float64.zero }

/-- The go-metrics `NilTimer` of `TestAddTimer`, whose snapshot is that of a timer without
samples: every method returns zero. -/
def NilTimer : Timer Float64 where
  Snapshot :=
    { Count := 0, Max := 0, Min := 0,
      Mean := Float64.zero, StdDev := Float64.zero, Variance := Float64.zero,
      Percentile := fun _ => Float64.zero }

/-- The go-metrics `NilMeter` of `TestAddMeter`: every method returns zero. -/
def NilMeter : Meter Float64 where
  Snapshot :=
    { Count := 0, Rate1 := Float64.zero, Rate5 := Float64.zero, Rate15 := Float64.zero,
      RateMean := Float64.zero }

/-- A Reporter whose second registered value is of none of the six kinds (a go-metrics
`Healthcheck`, say). -/
def healthReporter : Reporter Float64 :=
  { testReporter with
    Registry := [("dummycounter", .counter ⟨6⟩), ("health", .other 0),
      ("dummygauge", .gauge ⟨8⟩)] }

/-! ## Auxiliary definitions used in the statements and proofs -/

/-- The value of a decimal digit character. -/
def digitVal (c : Char) : Nat := c.toNat - 48

/-- The entries `NewMeasure` writes for the segments of a name. -/
def identifierEntries {F : Type} (name : String) : Doc F :=
  (Split name '.').enum.map fun ie => (identifierKey ie.1, Value.str ie.2)

/-- The kind tag an `Add` method writes for a metric of one of the six kinds; `none` for a
value of no kind, for which `FlushOnce` calls no `Add` method. -/
def kindOf {F : Type} : Metric F → Option String
  | .counter _ => some "counter"
  | .gauge _ => some "gauge"
  | .gaugeFloat64 _ => some "gauge64"
  | .histogram _ => some "histogram"
  | .meter _ => some "meter"
  | .timer _ => some "timer"
  | .other _ => none

/-- An operation on documents changes only the keys `"kind"` and `tag`: every other key
reads as before, and the keys afterwards are those two and the keys there were. -/
def ChangesOnly {F : Type} (add : Measure F → Measure F) (tag : String) : Prop :=
  ∀ m : Measure F,
    (∀ k, k ≠ "kind" → k ≠ tag → mapIndex (add m) k = mapIndex m k) ∧
    (∀ k, k ∈ mapKeys (add m) ↔ k = "kind" ∨ k = tag ∨ k ∈ mapKeys m)

/-! ## Maps: reads after writes -/

theorem mapIndex_mapAssign_self {V : Type} (m : List (String × V)) (k : String) (v : V) :
    mapIndex (mapAssign m k v) k = some v := by
  induction m with
  | nil => simp [mapAssign, mapIndex]
  | cons e rest ih =>
    obtain ⟨k', v'⟩ := e
    by_cases h : k' = k
    · simp [mapAssign, mapIndex, h]
    · simp [mapAssign, mapIndex, h, ih]

theorem mapIndex_mapAssign_ne {V : Type} (m : List (String × V)) (k k' : String) (v : V)
    (hne : k ≠ k') : mapIndex (mapAssign m k v) k' = mapIndex m k' := by
  induction m with
  | nil => simp [mapAssign, mapIndex, hne]
  | cons e rest ih =>
    obtain ⟨k₁, v₁⟩ := e
    by_cases h : k₁ = k
    · subst h
      simp [mapAssign, mapIndex, hne]
    · by_cases h' : k₁ = k'
      · subst h'
        simp [mapAssign, mapIndex, h]
      · simp [mapAssign, mapIndex, h, h', ih]

theorem mapIndex_mapAssign {V : Type} (m : List (String × V)) (k k' : String) (v : V) :
    mapIndex (mapAssign m k v) k' = if k = k' then some v else mapIndex m k' := by
  by_cases h : k = k'
  · subst h
    simp [mapIndex_mapAssign_self]
  · simp [h, mapIndex_mapAssign_ne m k k' v h]

theorem mapIndex_eq_none_iff {V : Type} (m : List (String × V)) (k : String) :
    mapIndex m k = none ↔ k ∉ mapKeys m := by
  induction m with
  | nil => simp [mapIndex, mapKeys]
  | cons e rest ih =>
    obtain ⟨k', v'⟩ := e
    by_cases h : k' = k
    · simp [mapIndex, mapKeys, h]
    · have h' : ¬ k = k' := fun hh => h hh.symm
      simpa [mapIndex, mapKeys, h, h'] using ih

theorem mapIndex_of_mem {V : Type} (m : List (String × V)) (hnd : (mapKeys m).Nodup)
    (k : String) (v : V) (hmem : (k, v) ∈ m) : mapIndex m k = some v := by
  induction m with
  | nil => simp at hmem
  | cons e rest ih =>
    obtain ⟨k', v'⟩ := e
    simp only [mapKeys, List.map_cons, List.nodup_cons] at hnd
    rcases List.mem_cons.mp hmem with h | h
    · cases h
      simp [mapIndex]
    · have hk : k' ≠ k := by
        rintro rfl
        exact hnd.1 (List.mem_map.mpr ⟨(k', v), h, rfl⟩)
      simp only [mapIndex, hk, if_false]
      exact ih hnd.2 h

theorem mem_of_mapIndex {V : Type} (m : List (String × V)) (k : String) (v : V)
    (h : mapIndex m k = some v) : (k, v) ∈ m := by
  induction m with
  | nil => simp [mapIndex] at h
  | cons e rest ih =>
    obtain ⟨k', v'⟩ := e
    by_cases hk : k' = k
    · subst hk
      simp only [mapIndex, if_true, Option.some.injEq] at h
      subst h
      exact List.mem_cons_self _ _
    · simp only [mapIndex, hk, if_false] at h
      exact List.mem_cons_of_mem _ (ih h)

theorem mapKeys_mapAssign {V : Type} (m : List (String × V)) (k : String) (v : V) :
    mapKeys (mapAssign m k v) = if k ∈ mapKeys m then mapKeys m else mapKeys m ++ [k] := by
  induction m with
  | nil => simp [mapAssign, mapKeys]
  | cons e rest ih =>
    obtain ⟨k', v'⟩ := e
    by_cases h : k' = k
    · subst h
      simp [mapAssign, mapKeys]
    · have h' : ¬ k = k' := fun hh => h hh.symm
      simp only [mapKeys] at ih
      by_cases hm : k ∈ List.map Prod.fst rest
      · simp [mapAssign, mapKeys, h, h', ih, hm]
      · simp [mapAssign, mapKeys, h, h', ih, hm]

theorem mem_mapKeys_mapAssign {V : Type} (m : List (String × V)) (k k' : String) (v : V) :
    k' ∈ mapKeys (mapAssign m k v) ↔ k' = k ∨ k' ∈ mapKeys m := by
  rw [mapKeys_mapAssign]
  by_cases h : k ∈ mapKeys m
  · simp only [h, if_true]
    constructor
    · exact Or.inr
    · rintro (rfl | h')
      · exact h
      · exact h'
  · simp only [h, if_false, List.mem_append, List.mem_singleton]
    tauto

theorem nodup_mapKeys_mapAssign {V : Type} (m : List (String × V)) (k : String) (v : V)
    (h : (mapKeys m).Nodup) : (mapKeys (mapAssign m k v)).Nodup := by
  rw [mapKeys_mapAssign]
  by_cases hk : k ∈ mapKeys m
  · simpa [hk] using h
  · simp only [hk, if_false]
    exact List.Nodup.append h (List.nodup_singleton k) (by simpa using hk)

theorem mapAssign_of_not_mem {V : Type} (m : List (String × V)) (k : String) (v : V)
    (h : k ∉ mapKeys m) : mapAssign m k v = m ++ [(k, v)] := by
  induction m with
  | nil => rfl
  | cons e rest ih =>
    obtain ⟨k', v'⟩ := e
    simp only [mapKeys, List.map_cons, List.mem_cons, not_or] at h
    have h' : ¬ k' = k := fun hh => h.1 hh.symm
    simp only [mapAssign, h', if_false, List.cons_append]
    rw [ih h.2]

/-- Assigning entries with fresh, pairwise distinct keys appends them in order. -/
theorem foldl_mapAssign_fresh {V : Type} (kvs m : List (String × V))
    (hnd : (mapKeys (m ++ kvs)).Nodup) :
    kvs.foldl (fun m kv => mapAssign m kv.1 kv.2) m = m ++ kvs := by
  induction kvs generalizing m with
  | nil => simp
  | cons e rest ih =>
    have hnd' : (mapKeys ((m ++ [e]) ++ rest)).Nodup := by simpa using hnd
    have hfresh : e.1 ∉ mapKeys m := by
      simp only [mapKeys, List.map_append, List.map_cons] at hnd
      have := (List.nodup_append.mp hnd).2.2
      intro hmem
      exact this hmem (List.mem_cons_self _ _)
    simp only [List.foldl_cons]
    rw [mapAssign_of_not_mem m e.1 e.2 hfresh, ih _ hnd']
    simp

/-- After a run of assignments, a key holds the value of the last assignment made to it,
or what it held before when none was made. -/
theorem mapIndex_foldl_mapAssign {V : Type} (kvs m : List (String × V)) (k : String) :
    mapIndex (kvs.foldl (fun m kv => mapAssign m kv.1 kv.2) m) k =
      (mapIndex kvs.reverse k).orElse (fun _ => mapIndex m k) := by
  induction kvs generalizing m with
  | nil => simp [mapIndex]
  | cons e rest ih =>
    obtain ⟨k', v'⟩ := e
    simp only [List.foldl_cons, List.reverse_cons]
    rw [ih]
    have happ : ∀ (l : List (String × V)), mapIndex (l ++ [(k', v')]) k =
        (mapIndex l k).orElse (fun _ => if k' = k then some v' else none) := by
      intro l
      induction l with
      | nil => simp [mapIndex]
      | cons e' l' ih' =>
        obtain ⟨k₂, v₂⟩ := e'
        by_cases h2 : k₂ = k
        · simp [mapIndex, h2]
        · simpa [mapIndex, h2] using ih'
    rw [happ, mapIndex_mapAssign]
    cases mapIndex rest.reverse k with
    | none => by_cases hk : k' = k <;> simp [hk]
    | some w => simp

theorem mapIndex_reverse {V : Type} (m : List (String × V)) (hnd : (mapKeys m).Nodup)
    (k : String) : mapIndex m.reverse k = mapIndex m k := by
  cases h : mapIndex m k with
  | none =>
    rw [mapIndex_eq_none_iff] at h ⊢
    simpa [mapKeys] using h
  | some v =>
    have hmem := mem_of_mapIndex m k v h
    apply mapIndex_of_mem
    · simpa [mapKeys, List.map_reverse] using hnd
    · simpa using hmem

/-! ## `strings.Split` and the identifier keys -/

theorem splitLoop_length (sep : Char) (s cur : List Char) :
    (splitLoop sep cur s).length = s.count sep + 1 := by
  induction s generalizing cur with
  | nil => simp [splitLoop]
  | cons c cs ih =>
    by_cases h : c = sep
    · subst h
      simp [splitLoop, ih]
    · have h' : ¬ (c == sep) = true := by simpa using h
      simp [splitLoop, h, ih, List.count_cons, h']

theorem splitLoop_ne_nil (sep : Char) (s cur : List Char) : splitLoop sep cur s ≠ [] := by
  intro h
  have := splitLoop_length sep s cur
  rw [h] at this
  simp at this

theorem splitLoop_join (sep : Char) (s cur : List Char) :
    [sep].intercalate (splitLoop sep cur s) = cur.reverse ++ s := by
  induction s generalizing cur with
  | nil => simp [splitLoop, List.intercalate]
  | cons c cs ih =>
    by_cases h : c = sep
    · subst h
      have hne := splitLoop_ne_nil c cs []
      have ih' := ih []
      cases hs : splitLoop c [] cs with
      | nil => exact absurd hs hne
      | cons a as =>
        rw [hs] at ih'
        simp only [splitLoop, if_true, hs]
        simp only [List.intercalate, List.intersperse_cons_cons, List.flatten_cons] at ih' ⊢
        rw [ih']
        simp
    · simp only [splitLoop, h, if_false]
      rw [ih]
      simp

theorem splitLoop_no_sep (sep : Char) (s cur : List Char) (hcur : sep ∉ cur) :
    ∀ seg ∈ splitLoop sep cur s, sep ∉ seg := by
  induction s generalizing cur with
  | nil =>
    intro seg hseg
    simp only [splitLoop, List.mem_singleton] at hseg
    subst hseg
    simpa using hcur
  | cons c cs ih =>
    intro seg hseg
    by_cases h : c = sep
    · simp only [splitLoop, h, if_true, List.mem_cons] at hseg
      rcases hseg with rfl | hseg
      · simpa using hcur
      · exact ih [] (by simp) seg hseg
    · simp only [splitLoop, h, if_false] at hseg
      refine ih (c :: cur) ?_ seg hseg
      simp only [List.mem_cons, not_or]
      exact ⟨fun hh => h hh.symm, hcur⟩

theorem Split_length (name : String) (sep : Char) :
    (Split name sep).length = name.data.count sep + 1 := by
  simp [Split, splitLoop_length]

theorem intercalate_go_data (sep acc : String) (l : List String) :
    (String.intercalate.go acc sep l).data =
      acc.data ++ (l.map fun a => sep.data ++ a.data).flatten := by
  induction l generalizing acc with
  | nil => simp [String.intercalate.go]
  | cons a as ih => simp [String.intercalate.go, ih, String.data_append]

/-- Joining the segments with the separator gives the string back. -/
theorem Split_join (name : String) (sep : Char) :
    String.intercalate (String.singleton sep) (Split name sep) = name := by
  apply String.ext
  have hj := splitLoop_join sep name.data []
  have hne := splitLoop_ne_nil sep name.data []
  unfold Split
  cases hs : splitLoop sep [] name.data with
  | nil => exact absurd hs hne
  | cons a as =>
    rw [hs] at hj
    simp only [List.map_cons, String.intercalate, intercalate_go_data]
    simp only [List.reverse_nil, List.nil_append] at hj
    rw [← hj]
    clear hj hs hne
    induction as generalizing a with
    | nil => simp [List.intercalate]
    | cons b bs ih =>
      have := ih b
      simp only [List.intercalate, List.intersperse_cons_cons, List.flatten_cons, List.map_cons,
        List.map_map] at this ⊢
      rw [← this]
      simp [String.singleton]

/-- No segment contains the separator. -/
theorem Split_no_sep (name : String) (sep : Char) :
    ∀ seg ∈ Split name sep, sep ∉ seg.data := by
  intro seg hseg
  simp only [Split, List.mem_map] at hseg
  obtain ⟨cs, hcs, rfl⟩ := hseg
  exact splitLoop_no_sep sep name.data [] (by simp) cs hcs

theorem digitVal_digitChar (k : Nat) (h : k < 10) : digitVal (Nat.digitChar k) = k := by
  interval_cases k <;> rfl

theorem foldl_toDigitsCore (fuel : Nat) : ∀ (n : Nat) (ds : List Char), n < fuel →
    (Nat.toDigitsCore 10 fuel n ds).foldl (fun a c => a * 10 + digitVal c) 0
      = ds.foldl (fun a c => a * 10 + digitVal c) n := by
  induction fuel with
  | zero => intro n ds h; omega
  | succ fuel ih =>
    intro n ds h
    unfold Nat.toDigitsCore
    simp only
    split
    · simp only [List.foldl_cons, digitVal_digitChar _ (Nat.mod_lt n (by decide : 10 > 0))]
      congr 1
      omega
    · rw [ih _ _ (by omega)]
      simp only [List.foldl_cons, digitVal_digitChar _ (Nat.mod_lt n (by decide : 10 > 0))]
      congr 1
      omega

/-- Distinct numbers have distinct decimal renderings. -/
theorem repr_injective : Function.Injective Nat.repr := by
  intro a b h
  have ha := foldl_toDigitsCore (a + 1) a [] (by omega)
  have hb := foldl_toDigitsCore (b + 1) b [] (by omega)
  simp only [List.foldl_nil] at ha hb
  have h' : Nat.toDigits 10 a = Nat.toDigits 10 b := by
    have := congrArg String.data h
    simpa [Nat.repr, List.asString] using this
  unfold Nat.toDigits at h'
  rw [← ha, ← hb, h']

theorem identifierKey_injective : Function.Injective identifierKey := by
  intro a b h
  apply repr_injective
  have h' := congrArg String.data h
  simp only [identifierKey, String.data_append] at h'
  exact String.ext (List.append_cancel_left h')

theorem mapKeys_identifierEntries {F : Type} (name : String) :
    mapKeys (identifierEntries name : Doc F) =
      (List.range (Split name '.').length).map identifierKey := by
  simp only [identifierEntries, mapKeys, List.map_map]
  rw [← List.enum_map_fst, List.map_map]
  rfl

theorem nodup_identifierEntries {F : Type} (name : String) :
    (mapKeys (identifierEntries name : Doc F)).Nodup := by
  rw [mapKeys_identifierEntries]
  exact (List.nodup_range _).map identifierKey_injective

theorem mapIndex_identifierEntries {F : Type} (name : String) (i : Nat) :
    mapIndex (identifierEntries name : Doc F) (identifierKey i) =
      ((Split name '.')[i]?).map Value.str := by
  by_cases hi : i < (Split name '.').length
  · rw [List.getElem?_eq_getElem hi]
    apply mapIndex_of_mem _ (nodup_identifierEntries name)
    simp only [identifierEntries, List.mem_map]
    refine ⟨(i, (Split name '.')[i]), ?_, rfl⟩
    rw [List.mk_mem_enum_iff_getElem?]
    exact List.getElem?_eq_getElem hi
  · rw [List.getElem?_eq_none (by omega)]
    simp only [Option.map_none']
    rw [mapIndex_eq_none_iff, mapKeys_identifierEntries]
    intro hmem
    obtain ⟨j, hj, hji⟩ := List.mem_map.mp hmem
    have := identifierKey_injective hji
    subst this
    exact hi (List.mem_range.mp hj)

/-- With the default values `d`, `NewMeasure` is the run of assignments of `d` on the
identifier entries. -/
theorem NewMeasure_eq {F : Type} (name : String) (d : Doc F) :
    NewMeasure name d = d.foldl (fun m kv => mapAssign m kv.1 kv.2) (identifierEntries name) := by
  have h : (Split name '.').enum.foldl
      (fun (m : Measure F) ie => mapAssign m (identifierKey ie.1) (Value.str ie.2)) [] =
      identifierEntries name := by
    have := foldl_mapAssign_fresh (identifierEntries name : Doc F) []
      (by simpa using nodup_identifierEntries name)
    rw [List.nil_append] at this
    rw [← this, identifierEntries, List.foldl_map]
  simp only [NewMeasure, h]

theorem NewMeasure_nil {F : Type} (name : String) :
    NewMeasure name ([] : Doc F) = identifierEntries name := by
  rw [NewMeasure_eq]
  rfl

/-! ## The claims about `NewMeasure` -/

/-- C1: for a name with `N` dot-separated segments (`N` is the number of `.` plus one, and
joining the segments with `.` gives the name back), `NewMeasure` without default values has
exactly the keys `identifier0 .. identifier(N-1)`, pairwise distinct, and `identifier{i}`
holds the `i`-th segment. -/
theorem C1_NewMeasure_identifiers {F : Type} (name : String) :
    (Split name '.').length = name.data.count '.' + 1 ∧
    String.intercalate "." (Split name '.') = name ∧
    mapKeys (NewMeasure name ([] : Doc F)) =
      (List.range (name.data.count '.' + 1)).map identifierKey ∧
    Function.Injective identifierKey ∧
    ∀ i, mapIndex (NewMeasure name ([] : Doc F)) (identifierKey i) =
      ((Split name '.')[i]?).map Value.str := by
  refine ⟨Split_length name '.', Split_join name '.', ?_, identifierKey_injective, ?_⟩
  · rw [NewMeasure_nil, mapKeys_identifierEntries, Split_length]
  · intro i
    rw [NewMeasure_nil]
    exact mapIndex_identifierEntries name i

/-- Reading `NewMeasure(name, d)`: the value `d` gives, else the identifier entry. -/
theorem mapIndex_NewMeasure {F : Type} (name : String) (d : Doc F) (hd : (mapKeys d).Nodup)
    (k : String) :
    mapIndex (NewMeasure name d) k =
      (mapIndex d k).orElse (fun _ => mapIndex (identifierEntries name : Doc F) k) := by
  rw [NewMeasure_eq, mapIndex_foldl_mapAssign, mapIndex_reverse d hd]

theorem mapIndex_NewMeasure_of_mem {F : Type} (name : String) (d : Doc F) (hd : (mapKeys d).Nodup)
    (k : String) (v : Value F) (hmem : (k, v) ∈ d) :
    mapIndex (NewMeasure name d) k = some v := by
  rw [mapIndex_NewMeasure name d hd, mapIndex_of_mem d hd k v hmem]
  rfl

/-- C2: for a default-values map `d` (one entry per key), `NewMeasure(name, d)` gives every
key of `d` the value `d` gives it, also when the key is an identifier key; a key of the
result that is not a key of `d` is some `identifier{i}` holding the `i`-th segment; every
`identifier{i}` that is not a key of `d` holds the `i`-th segment; and with no default
values the keys are the identifier keys only. -/
theorem C2_NewMeasure_defaults {F : Type} (name : String) (d : Doc F)
    (hd : (mapKeys d).Nodup) :
    (∀ k v, (k, v) ∈ d → mapIndex (NewMeasure name d) k = some v) ∧
    (∀ k x, mapIndex (NewMeasure name d) k = some x → k ∉ mapKeys d →
      ∃ i seg, (Split name '.')[i]? = some seg ∧ k = identifierKey i ∧ x = Value.str seg) ∧
    (∀ i, identifierKey i ∉ mapKeys d →
      mapIndex (NewMeasure name d) (identifierKey i) = ((Split name '.')[i]?).map Value.str) ∧
    mapKeys (NewMeasure name ([] : Doc F)) =
      (List.range (Split name '.').length).map identifierKey := by
  refine ⟨?_, ?_, ?_, ?_⟩
  · exact mapIndex_NewMeasure_of_mem name d hd
  · intro k x hx hk
    rw [mapIndex_NewMeasure name d hd, (mapIndex_eq_none_iff d k).mpr hk] at hx
    simp only [Option.orElse] at hx
    have hmem := mem_of_mapIndex _ k x hx
    simp only [identifierEntries, List.mem_map] at hmem
    obtain ⟨⟨i, seg⟩, hie, heq⟩ := hmem
    rw [List.mk_mem_enum_iff_getElem?] at hie
    simp only [Prod.mk.injEq] at heq
    exact ⟨i, seg, hie, heq.1.symm, heq.2.symm⟩
  · intro i hi
    rw [mapIndex_NewMeasure name d hd, (mapIndex_eq_none_iff d _).mpr hi]
    simp only [Option.orElse]
    exact mapIndex_identifierEntries name i
  · rw [NewMeasure_nil, mapKeys_identifierEntries]

/-! ## The `Add` methods: what they write and what they leave -/

theorem mapIndex_assign_kind {F : Type} (m : Measure F) (tag : String) (v : Value F)
    (k : String) (hk : k ≠ "kind") (ht : k ≠ tag) :
    mapIndex (mapAssign (mapAssign m "kind" (.str tag)) tag v) k = mapIndex m k := by
  rw [mapIndex_mapAssign_ne _ _ _ _ (Ne.symm ht), mapIndex_mapAssign_ne _ _ _ _ (Ne.symm hk)]

theorem mapIndex_assign_kind_kind {F : Type} (m : Measure F) (tag : String) (v : Value F)
    (ht : tag ≠ "kind") :
    mapIndex (mapAssign (mapAssign m "kind" (.str tag)) tag v) "kind" = some (.str tag) := by
  rw [mapIndex_mapAssign_ne _ _ _ _ ht, mapIndex_mapAssign_self]

theorem mapIndex_assign_kind_tag {F : Type} (m : Measure F) (tag : String) (v : Value F) :
    mapIndex (mapAssign (mapAssign m "kind" (.str tag)) tag v) tag = some v :=
  mapIndex_mapAssign_self _ _ _

/-- The measure built for a metric of one of the six kinds agrees with `NewMeasure` on every
key other than `"kind"` and the kind tag; for a value of no kind it is `NewMeasure`. -/
theorem mapIndex_eachMeasure_frame {F : Type} (ops : Float64Ops F) (r : Reporter F)
    (name : String) (i : Metric F) (k : String) (hk : k ≠ "kind") (ht : kindOf i ≠ some k) :
    mapIndex (eachMeasure ops r name i) k = mapIndex (NewMeasure name r.DefaultValues) k := by
  cases i with
  | other tag => rfl
  | _ =>
    simp only [kindOf, ne_eq, Option.some.injEq] at ht
    exact mapIndex_assign_kind _ _ _ k hk (fun h => ht h.symm)

/-- C3 (amended): for a metric of any kind and default values `d` (one entry per key), the
document `FlushOnce` builds holds, for every key of `d` other than `"kind"` and the
metric's kind tag, the value `d` gives it. -/
theorem C3_defaults_in_final_document {F : Type} (ops : Float64Ops F) (r : Reporter F)
    (hd : (mapKeys r.DefaultValues).Nodup) (name : String) (i : Metric F)
    (k : String) (v : Value F) (hmem : (k, v) ∈ r.DefaultValues)
    (hk : k ≠ "kind") (ht : kindOf i ≠ some k) :
    mapIndex (eachMeasure ops r name i) k = some v := by
  rw [mapIndex_eachMeasure_frame ops r name i k hk ht]
  exact (mapIndex_NewMeasure_of_mem name r.DefaultValues hd k v hmem)

/-! ## `FlushOnce` -/

theorem foldl_append_singleton {α β : Type} (f : α → β) (l : List α) (init : List β) :
    l.foldl (fun acc x => acc ++ [f x]) init = init ++ l.map f := by
  induction l generalizing init with
  | nil => simp
  | cons a as ih => simp [ih]

/-- The slice `measures` holds, in enumeration order, the measure of each metric. -/
theorem collectMeasures_eq {F : Type} (ops : Float64Ops F) (r : Reporter F) :
    collectMeasures ops r = r.Registry.map fun ni => eachMeasure ops r ni.1 ni.2 := by
  simp [collectMeasures, foldl_append_singleton]

/-- When every write made succeeded, no error is returned and the payloads written are the
serializations, in order, of the measures that serialize. -/
theorem sendLoop_ok {F σ ε : Type} (tr : Transport F σ ε) (ms : List (Measure F)) (conn : σ)
    (hok : ∀ w ∈ (sendLoop tr conn ms).writes, w.2 = none) :
    (sendLoop tr conn ms).err = none ∧
    (sendLoop tr conn ms).writes.map Prod.fst = ms.filterMap tr.Marshal := by
  induction ms generalizing conn with
  | nil => simp [sendLoop]
  | cons m rest ih =>
    cases hm : tr.Marshal m with
    | none =>
      simp only [sendLoop, hm] at hok ⊢
      simpa [List.filterMap_cons, hm] using ih conn hok
    | some data =>
      rcases hw : tr.Write conn data with ⟨conn', _ | e⟩
      · simp only [sendLoop, hm, hw] at hok ⊢
        have := ih conn' (fun w hwmem => hok w (List.mem_cons_of_mem _ hwmem))
        simp [List.filterMap_cons, hm, this.1, this.2]
      · simp only [sendLoop, hm, hw] at hok
        have := hok (data, some e) (List.mem_singleton.mpr rfl)
        simp at this

/-- When an error is returned, it is the error of the last write made; the writes before it
succeeded and carry, in order, the serializations of the measures before the failing one. -/
theorem sendLoop_err {F σ ε : Type} (tr : Transport F σ ε) (ms : List (Measure F)) (conn : σ)
    (e : ε) (he : (sendLoop tr conn ms).err = some e) :
    ∃ pre m post data, ms = pre ++ m :: post ∧ tr.Marshal m = some data ∧
      (sendLoop tr conn ms).writes =
        (pre.filterMap tr.Marshal).map (fun b => (b, none)) ++ [(data, some e)] := by
  induction ms generalizing conn with
  | nil => simp [sendLoop] at he
  | cons m rest ih =>
    cases hm : tr.Marshal m with
    | none =>
      simp only [sendLoop, hm] at he ⊢
      obtain ⟨pre, m', post, data, hsplit, hser, hwr⟩ := ih conn he
      refine ⟨m :: pre, m', post, data, by simp [hsplit], hser, ?_⟩
      simp [List.filterMap_cons, hm, hwr]
    | some data =>
      rcases hw : tr.Write conn data with ⟨conn', _ | e'⟩
      · simp only [sendLoop, hm, hw] at he ⊢
        obtain ⟨pre, m', post, data', hsplit, hser, hwr⟩ := ih conn' he
        refine ⟨m :: pre, m', post, data', by simp [hsplit], hser, ?_⟩
        simp [List.filterMap_cons, hm, hwr]
      · simp only [sendLoop, hm, hw, Option.some.injEq] at he ⊢
        subst he
        exact ⟨[], m, rest, data, rfl, hm, by simp⟩

/-- An error is returned exactly when a write made returned one, and it is that error. -/
theorem sendLoop_err_iff {F σ ε : Type} (tr : Transport F σ ε) (ms : List (Measure F))
    (conn : σ) (e : ε) :
    (sendLoop tr conn ms).err = some e ↔ ∃ w ∈ (sendLoop tr conn ms).writes, w.2 = some e := by
  induction ms generalizing conn with
  | nil => simp [sendLoop]
  | cons m rest ih =>
    cases hm : tr.Marshal m with
    | none =>
      simp only [sendLoop, hm]
      exact ih conn
    | some data =>
      rcases hw : tr.Write conn data with ⟨conn', _ | e'⟩
      · simp only [sendLoop, hm, hw]
        rw [ih conn']
        simp
      · simp only [sendLoop, hm, hw]
        simp

/-- A measure that does not serialize is passed over: the loop runs as if it were absent. -/
theorem sendLoop_skip {F σ ε : Type} (tr : Transport F σ ε) (pre post : List (Measure F))
    (m : Measure F) (hm : tr.Marshal m = none) (conn : σ) :
    sendLoop tr conn (pre ++ m :: post) = sendLoop tr conn (pre ++ post) := by
  induction pre generalizing conn with
  | nil => simp [sendLoop, hm]
  | cons a as ih =>
    cases ha : tr.Marshal a with
    | none =>
      simp only [List.cons_append, sendLoop, ha]
      exact ih conn
    | some data =>
      rcases hw : tr.Write conn data with ⟨conn', _ | e⟩
      · have h := ih conn'
        simp only [List.cons_append, sendLoop, ha, hw, List.append_eq, h]
      · simp only [List.cons_append, sendLoop, ha, hw]

/-- C4: when the measure of every registered metric serializes and every write made
succeeds, `FlushOnce` returns no error and makes as many writes as there are metrics, the
`k`-th write carrying the serialization of the measure built from the `k`-th metric. -/
theorem C4_FlushOnce_one_datagram_per_metric {F σ ε : Type} (ops : Float64Ops F)
    (tr : Transport F σ ε) (r : Reporter F) (conn : σ)
    (hser : ∀ ni ∈ r.Registry, tr.Marshal (eachMeasure ops r ni.1 ni.2) ≠ none)
    (hok : ∀ w ∈ (FlushOnce ops tr r conn).writes, w.2 = none) :
    (FlushOnce ops tr r conn).err = none ∧
    (FlushOnce ops tr r conn).writes.length = r.Registry.length ∧
    (FlushOnce ops tr r conn).writes.map (fun w => some w.1) =
      r.Registry.map (fun ni => tr.Marshal (eachMeasure ops r ni.1 ni.2)) := by
  obtain ⟨herr, hwr⟩ := sendLoop_ok tr (collectMeasures ops r) conn hok
  have hall : ∀ (l : List (String × Metric F)),
      (∀ ni ∈ l, tr.Marshal (eachMeasure ops r ni.1 ni.2) ≠ none) →
      ((l.map fun ni => eachMeasure ops r ni.1 ni.2).filterMap tr.Marshal).map some =
        l.map (fun ni => tr.Marshal (eachMeasure ops r ni.1 ni.2)) := by
    intro l hl
    induction l with
    | nil => rfl
    | cons a as ih =>
      have ha := hl a (List.mem_cons_self _ _)
      obtain ⟨data, hdata⟩ := Option.ne_none_iff_exists'.mp ha
      have := ih (fun ni hni => hl ni (List.mem_cons_of_mem _ hni))
      rw [List.map_cons, List.filterMap_cons, hdata, List.map_cons, List.map_cons, this, hdata]
  have hmap : (FlushOnce ops tr r conn).writes.map (fun w => some w.1) =
      r.Registry.map (fun ni => tr.Marshal (eachMeasure ops r ni.1 ni.2)) := by
    have h1 : (FlushOnce ops tr r conn).writes.map (fun w => some w.1) =
        ((sendLoop tr conn (collectMeasures ops r)).writes.map Prod.fst).map some := by
      simp [FlushOnce, List.map_map]
    rw [h1, hwr, collectMeasures_eq]
    exact hall r.Registry hser
  refine ⟨herr, ?_, hmap⟩
  have := congrArg List.length hmap
  simpa using this

/-- C5: `FlushOnce` returns the error `e` exactly when a write it made returned `e`; that
write is then the last one made, every write before it succeeded, and the writes carry the
serializations of the measures that serialize up to the failing one, in enumeration
order: nothing is written for the metrics after it. -/
theorem C5_FlushOnce_error {F σ ε : Type} (ops : Float64Ops F) (tr : Transport F σ ε)
    (r : Reporter F) (conn : σ) :
    (∀ e, (FlushOnce ops tr r conn).err = some e ↔
      ∃ w ∈ (FlushOnce ops tr r conn).writes, w.2 = some e) ∧
    (∀ e, (FlushOnce ops tr r conn).err = some e →
      ∃ pre ni post data, r.Registry = pre ++ ni :: post ∧
        tr.Marshal (eachMeasure ops r ni.1 ni.2) = some data ∧
        (FlushOnce ops tr r conn).writes =
          ((pre.map fun ni => eachMeasure ops r ni.1 ni.2).filterMap tr.Marshal).map
            (fun b => (b, none)) ++ [(data, some e)]) := by
  refine ⟨fun e => sendLoop_err_iff tr _ conn e, ?_⟩
  intro e he
  obtain ⟨pre, m, post, data, hsplit, hser, hwr⟩ := sendLoop_err tr _ conn e he
  rw [collectMeasures_eq] at hsplit
  obtain ⟨pre', rest', hreg, hpre, hrest⟩ := List.map_eq_append_iff.mp hsplit
  obtain ⟨ni, post', hrest', hni, _⟩ := List.map_eq_cons_iff.mp hrest
  refine ⟨pre', ni, post', data, by rw [hreg, hrest'], by rw [hni]; exact hser, ?_⟩
  rw [hpre]
  exact hwr

/-- C6: a metric whose measure does not serialize is skipped. `FlushOnce` ends exactly as on
the registry without that metric (same writes, same error, same connection), and when
every write it makes succeeds it returns no error and has written the serialization of
every other metric's measure, those before and those after, in enumeration order. -/
theorem C6_FlushOnce_skips_unserializable {F σ ε : Type} (ops : Float64Ops F)
    (tr : Transport F σ ε) (r : Reporter F) (conn : σ)
    (pre post : List (String × Metric F)) (ni : String × Metric F)
    (hreg : r.Registry = pre ++ ni :: post)
    (hfail : tr.Marshal (eachMeasure ops r ni.1 ni.2) = none) :
    FlushOnce ops tr r conn = FlushOnce ops tr { r with Registry := pre ++ post } conn ∧
    ((∀ w ∈ (FlushOnce ops tr r conn).writes, w.2 = none) →
      (FlushOnce ops tr r conn).err = none ∧
      (FlushOnce ops tr r conn).writes.map Prod.fst =
        ((pre ++ post).map fun ni => eachMeasure ops r ni.1 ni.2).filterMap tr.Marshal) := by
  have hskip : FlushOnce ops tr r conn =
      FlushOnce ops tr { r with Registry := pre ++ post } conn := by
    simp only [FlushOnce, collectMeasures_eq, hreg, List.map_append, List.map_cons]
    exact sendLoop_skip tr _ _ _ hfail conn
  refine ⟨hskip, ?_⟩
  intro hok
  obtain ⟨herr, hwr⟩ := sendLoop_ok tr (collectMeasures ops r) conn hok
  refine ⟨herr, ?_⟩
  have : (FlushOnce ops tr r conn).writes.map Prod.fst =
      (collectMeasures ops r).filterMap tr.Marshal := hwr
  rw [this, collectMeasures_eq, hreg]
  simp [List.filterMap_append, List.filterMap_cons, hfail]

/-- C7: the measure `FlushOnce` builds for a counter, gauge, float gauge, histogram, meter or
timer has `"kind"` equal to `"counter"`, `"gauge"`, `"gauge64"`, `"histogram"`, `"meter"`
or `"timer"`, and holds under the key of that name the count, the value, or the nested
document of the snapshot (for histograms and timers with the Reporter's percentiles). -/
theorem C7_kind_tag_and_data {F : Type} (ops : Float64Ops F) (r : Reporter F) (name : String) :
    (∀ c : Counter,
      mapIndex (eachMeasure ops r name (.counter c)) "kind" = some (.str "counter") ∧
      mapIndex (eachMeasure ops r name (.counter c)) "counter" = some (.int c.Count)) ∧
    (∀ g : Gauge,
      mapIndex (eachMeasure ops r name (.gauge g)) "kind" = some (.str "gauge") ∧
      mapIndex (eachMeasure ops r name (.gauge g)) "gauge" = some (.int g.Value)) ∧
    (∀ g : GaugeFloat64 F,
      mapIndex (eachMeasure ops r name (.gaugeFloat64 g)) "kind" = some (.str "gauge64") ∧
      mapIndex (eachMeasure ops r name (.gaugeFloat64 g)) "gauge64" = some (.float g.Value)) ∧
    (∀ h : Histogram F,
      mapIndex (eachMeasure ops r name (.histogram h)) "kind" = some (.str "histogram") ∧
      mapIndex (eachMeasure ops r name (.histogram h)) "histogram" =
        some (.obj (histogramDoc ops h.Snapshot r.Percentiles))) ∧
    (∀ m : Meter F,
      mapIndex (eachMeasure ops r name (.meter m)) "kind" = some (.str "meter") ∧
      mapIndex (eachMeasure ops r name (.meter m)) "meter" =
        some (.obj (meterDoc m.Snapshot))) ∧
    (∀ t : Timer F,
      mapIndex (eachMeasure ops r name (.timer t)) "kind" = some (.str "timer") ∧
      mapIndex (eachMeasure ops r name (.timer t)) "timer" =
        some (.obj (timerDoc ops t.Snapshot r.Percentiles))) := by
  refine ⟨?_, ?_, ?_, ?_, ?_, ?_⟩ <;> intro x <;>
    exact ⟨mapIndex_assign_kind_kind _ _ _ (by decide), mapIndex_assign_kind_tag _ _ _⟩

/-- C8: on an empty document, `AddCounter` yields exactly `kind = "counter"` and `counter` =
the count as an integer; `AddGauge` yields exactly `kind = "gauge"` and `gauge` = the value
as an integer; `AddGaugeFloat64` yields exactly `kind = "gauge64"` and `gauge64` = the
gauge's value as a floating value. -/
theorem C8_scalar_kinds_on_empty {F : Type} :
    (∀ c : Counter, AddCounter ([] : Measure F) c =
      [("kind", .str "counter"), ("counter", .int c.Count)]) ∧
    (∀ g : Gauge, AddGauge ([] : Measure F) g =
      [("kind", .str "gauge"), ("gauge", .int g.Value)]) ∧
    (∀ g : GaugeFloat64 F, AddGaugeFloat64 ([] : Measure F) g =
      [("kind", .str "gauge64"), ("gauge64", .float g.Value)]) :=
  ⟨fun _ => rfl, fun _ => rfl, fun _ => rfl⟩

/-! ## The nested documents of histograms and timers -/

theorem pStr_data {F : Type} (ops : Float64Ops F) (p : F) :
    (pStr ops p).data =
      'p' :: (ops.fmtG (ops.mul p (ops.ofInt 100))).data.map
        (fun c => if c = '.' then '_' else c) := by
  simp [pStr, Replace, String.data_append]

/-- A percentile key is none of the six fixed keys: it starts with `p`. -/
theorem pStr_not_fixed {F : Type} (ops : Float64Ops F) (p : F) :
    pStr ops p ∉ ["count", "max", "min", "mean", "stddev", "var"] := by
  intro hmem
  have hd := pStr_data ops p
  simp only [List.mem_cons, List.mem_singleton, List.not_mem_nil, or_false] at hmem
  rcases hmem with h | h | h | h | h | h <;>
  · rw [h] at hd
    simp at hd

theorem mapIndex_foldl_of_ne {α V : Type} (key : α → String) (val : α → V) (ps : List α)
    (base : List (String × V)) (k : String) (hne : ∀ q ∈ ps, key q ≠ k) :
    mapIndex (ps.foldl (fun t p => mapAssign t (key p) (val p)) base) k = mapIndex base k := by
  induction ps generalizing base with
  | nil => rfl
  | cons a as ih =>
    simp only [List.foldl_cons]
    rw [ih _ (fun q hq => hne q (List.mem_cons_of_mem _ hq)),
      mapIndex_mapAssign_ne _ _ _ _ (hne a (List.mem_cons_self _ _))]

/-- In a run of assignments, an entry with no later entry of the same key keeps its value. -/
theorem mapIndex_foldl_last {α V : Type} (key : α → String) (val : α → V) (pre post : List α)
    (p : α) (base : List (String × V)) (hlast : ∀ q ∈ post, key q ≠ key p) :
    mapIndex ((pre ++ p :: post).foldl (fun t p => mapAssign t (key p) (val p)) base) (key p) =
      some (val p) := by
  rw [List.foldl_append, List.foldl_cons, mapIndex_foldl_of_ne key val post _ _ hlast,
    mapIndex_mapAssign_self]

theorem mem_mapKeys_foldl {α V : Type} (key : α → String) (val : α → V) (ps : List α)
    (base : List (String × V)) (k : String) :
    k ∈ mapKeys (ps.foldl (fun t p => mapAssign t (key p) (val p)) base) ↔
      k ∈ mapKeys base ∨ ∃ p ∈ ps, k = key p := by
  induction ps generalizing base with
  | nil => simp
  | cons a as ih =>
    simp only [List.foldl_cons]
    rw [ih, mem_mapKeys_mapAssign]
    simp only [List.mem_cons, exists_eq_or_imp]
    tauto

theorem nodup_mapKeys_foldl {α V : Type} (key : α → String) (val : α → V) (ps : List α)
    (base : List (String × V)) (h : (mapKeys base).Nodup) :
    (mapKeys (ps.foldl (fun t p => mapAssign t (key p) (val p)) base)).Nodup := by
  induction ps generalizing base with
  | nil => exact h
  | cons a as ih =>
    simp only [List.foldl_cons]
    exact ih _ (nodup_mapKeys_mapAssign _ _ _ h)

/-- C9 (amended): `AddHistogram` sets `"kind"` to `"histogram"` and `"histogram"` to a nested
document whose keys are exactly `count`, `max`, `min`, `mean`, `stddev`, `var` and the
percentile keys of the entries of `ps`; the six fixed keys hold the snapshot's `Count`,
`Max`, `Min`, `Mean`, `StdDev`, `Variance`; and the key of an entry `p` of `ps` that no
later entry of `ps` shares holds `s.Percentile(p)` (of entries sharing a key, the last one
decides the value). -/
theorem C9_AddHistogram_document {F : Type} (ops : Float64Ops F) (m : Measure F)
    (h : Histogram F) (ps : List F) :
    mapIndex (AddHistogram ops m h ps) "kind" = some (.str "histogram") ∧
    mapIndex (AddHistogram ops m h ps) "histogram" =
      some (.obj (histogramDoc ops h.Snapshot ps)) ∧
    (∀ k, k ∈ mapKeys (histogramDoc ops h.Snapshot ps) ↔
      k ∈ ["count", "max", "min", "mean", "stddev", "var"] ∨ ∃ p ∈ ps, k = pStr ops p) ∧
    mapIndex (histogramDoc ops h.Snapshot ps) "count" = some (.int h.Snapshot.Count) ∧
    mapIndex (histogramDoc ops h.Snapshot ps) "max" = some (.int h.Snapshot.Max) ∧
    mapIndex (histogramDoc ops h.Snapshot ps) "min" = some (.int h.Snapshot.Min) ∧
    mapIndex (histogramDoc ops h.Snapshot ps) "mean" = some (.float h.Snapshot.Mean) ∧
    mapIndex (histogramDoc ops h.Snapshot ps) "stddev" = some (.float h.Snapshot.StdDev) ∧
    mapIndex (histogramDoc ops h.Snapshot ps) "var" = some (.float h.Snapshot.Variance) ∧
    (∀ pre p post, ps = pre ++ p :: post → (∀ q ∈ post, pStr ops q ≠ pStr ops p) →
      mapIndex (histogramDoc ops h.Snapshot ps) (pStr ops p) =
        some (.float (h.Snapshot.Percentile p))) := by
  have hfixed : ∀ k ∈ ["count", "max", "min", "mean", "stddev", "var"],
      ∀ q ∈ ps, pStr ops q ≠ k := by
    intro k hk q _ hq
    exact pStr_not_fixed ops q (hq ▸ hk)
  refine ⟨mapIndex_assign_kind_kind _ _ _ (by decide), mapIndex_assign_kind_tag _ _ _,
    ?_, ?_, ?_, ?_, ?_, ?_, ?_, ?_⟩
  · intro k
    simp only [histogramDoc]
    rw [mem_mapKeys_foldl]
    rfl
  · simp only [histogramDoc]
    rw [mapIndex_foldl_of_ne _ _ ps _ _ (hfixed _ (by simp))]
    rfl
  · simp only [histogramDoc]
    rw [mapIndex_foldl_of_ne _ _ ps _ _ (hfixed _ (by simp))]
    rfl
  · simp only [histogramDoc]
    rw [mapIndex_foldl_of_ne _ _ ps _ _ (hfixed _ (by simp))]
    rfl
  · simp only [histogramDoc]
    rw [mapIndex_foldl_of_ne _ _ ps _ _ (hfixed _ (by simp))]
    rfl
  · simp only [histogramDoc]
    rw [mapIndex_foldl_of_ne _ _ ps _ _ (hfixed _ (by simp))]
    rfl
  · simp only [histogramDoc]
    rw [mapIndex_foldl_of_ne _ _ ps _ _ (hfixed _ (by simp))]
    rfl
  · intro pre p post hps hlast
    simp only [histogramDoc]
    rw [hps]
    exact mapIndex_foldl_last (pStr ops) (fun p => Value.float (h.Snapshot.Percentile p))
      pre post p _ hlast

/-- C10 (amended): `AddTimer` sets `"kind"` to `"timer"` and `"timer"` to a nested document
in which `count`, `max`, `min`, `mean`, `stddev`, `var` hold the snapshot's `Count`, `Max`,
`Min`, `Mean`, `StdDev`, `Variance` unconverted, and the key of an entry `p` of `ps` that
no later entry of `ps` shares holds `time.Duration(s.Percentile(p)).Seconds() * 1000` (of
entries sharing a key, the last one decides the value). -/
theorem C10_AddTimer_document {F : Type} (ops : Float64Ops F) (m : Measure F)
    (t : Timer F) (ps : List F) :
    mapIndex (AddTimer ops m t ps) "kind" = some (.str "timer") ∧
    mapIndex (AddTimer ops m t ps) "timer" = some (.obj (timerDoc ops t.Snapshot ps)) ∧
    mapIndex (timerDoc ops t.Snapshot ps) "count" = some (.int t.Snapshot.Count) ∧
    mapIndex (timerDoc ops t.Snapshot ps) "max" = some (.int t.Snapshot.Max) ∧
    mapIndex (timerDoc ops t.Snapshot ps) "min" = some (.int t.Snapshot.Min) ∧
    mapIndex (timerDoc ops t.Snapshot ps) "mean" = some (.float t.Snapshot.Mean) ∧
    mapIndex (timerDoc ops t.Snapshot ps) "stddev" = some (.float t.Snapshot.StdDev) ∧
    mapIndex (timerDoc ops t.Snapshot ps) "var" = some (.float t.Snapshot.Variance) ∧
    (∀ pre p post, ps = pre ++ p :: post → (∀ q ∈ post, pStr ops q ≠ pStr ops p) →
      mapIndex (timerDoc ops t.Snapshot ps) (pStr ops p) =
        some (.float (ops.mul (ops.seconds (ops.toInt64 (t.Snapshot.Percentile p)))
          (ops.ofInt 1000)))) := by
  have hfixed : ∀ k ∈ ["count", "max", "min", "mean", "stddev", "var"],
      ∀ q ∈ ps, pStr ops q ≠ k := by
    intro k hk q _ hq
    exact pStr_not_fixed ops q (hq ▸ hk)
  refine ⟨mapIndex_assign_kind_kind _ _ _ (by decide), mapIndex_assign_kind_tag _ _ _,
    ?_, ?_, ?_, ?_, ?_, ?_, ?_⟩
  · simp only [timerDoc]
    rw [mapIndex_foldl_of_ne _ _ ps _ _ (hfixed _ (by simp))]
    rfl
  · simp only [timerDoc]
    rw [mapIndex_foldl_of_ne _ _ ps _ _ (hfixed _ (by simp))]
    rfl
  · simp only [timerDoc]
    rw [mapIndex_foldl_of_ne _ _ ps _ _ (hfixed _ (by simp))]
    rfl
  · simp only [timerDoc]
    rw [mapIndex_foldl_of_ne _ _ ps _ _ (hfixed _ (by simp))]
    rfl
  · simp only [timerDoc]
    rw [mapIndex_foldl_of_ne _ _ ps _ _ (hfixed _ (by simp))]
    rfl
  · simp only [timerDoc]
    rw [mapIndex_foldl_of_ne _ _ ps _ _ (hfixed _ (by simp))]
    rfl
  · intro pre p post hps hlast
    simp only [timerDoc]
    rw [hps]
    exact mapIndex_foldl_last (pStr ops) (fun p => Value.float (duration ops t.Snapshot p))
      pre post p _ hlast

/-! ## Meters, key names, frames -/

/-- C11: `AddMeter` sets `"kind"` to `"meter"` and `"meter"` to a nested document with
exactly the five keys `count`, `rate1`, `rate5`, `rate15`, `mean`, holding the snapshot's
`Count`, `Rate1`, `Rate5`, `Rate15`, `RateMean`. -/
theorem C11_AddMeter_document {F : Type} (m : Measure F) (meter : Meter F) :
    mapIndex (AddMeter m meter) "kind" = some (.str "meter") ∧
    mapIndex (AddMeter m meter) "meter" = some (.obj (meterDoc meter.Snapshot)) ∧
    meterDoc meter.Snapshot =
      [("count", .int meter.Snapshot.Count), ("rate1", .float meter.Snapshot.Rate1),
       ("rate5", .float meter.Snapshot.Rate5), ("rate15", .float meter.Snapshot.Rate15),
       ("mean", .float meter.Snapshot.RateMean)] :=
  ⟨mapIndex_assign_kind_kind _ _ _ (by decide), mapIndex_assign_kind_tag _ _ _, rfl⟩

theorem pStr_head {F : Type} (ops : Float64Ops F) (p : F) :
    (pStr ops p).data.head? = some 'p' := by
  rw [pStr_data]
  rfl

theorem pStr_no_dot {F : Type} (ops : Float64Ops F) (p : F) : '.' ∉ (pStr ops p).data := by
  rw [pStr_data]
  intro hmem
  rcases List.mem_cons.mp hmem with h | h
  · exact absurd h (by decide)
  · obtain ⟨c, _, hc⟩ := List.mem_map.mp h
    by_cases hdot : c = '.'
    · rw [if_pos hdot] at hc
      exact absurd hc (by decide)
    · rw [if_neg hdot] at hc
      exact hdot hc

/-- C19: whatever text `%g` produces for `p*100`, the percentile key of `p` starts with
`p` and contains no `.`; and every key of the nested document of `AddHistogram` and of
`AddTimer` other than the six fixed ones is such a key. -/
theorem C19_percentile_key_shape {F : Type} (ops : Float64Ops F) (p : F)
    (s : HistogramSnapshot F) (t : TimerSnapshot F) (ps : List F) :
    (pStr ops p).data.head? = some 'p' ∧ '.' ∉ (pStr ops p).data ∧
    (∀ k ∈ mapKeys (histogramDoc ops s ps),
      k ∈ ["count", "max", "min", "mean", "stddev", "var"] ∨
      (k.data.head? = some 'p' ∧ '.' ∉ k.data)) ∧
    (∀ k ∈ mapKeys (timerDoc ops t ps),
      k ∈ ["count", "max", "min", "mean", "stddev", "var"] ∨
      (k.data.head? = some 'p' ∧ '.' ∉ k.data)) := by
  refine ⟨pStr_head ops p, pStr_no_dot ops p, ?_, ?_⟩
  · intro k hk
    simp only [histogramDoc] at hk
    rw [mem_mapKeys_foldl] at hk
    rcases hk with hk | ⟨q, _, rfl⟩
    · exact Or.inl hk
    · exact Or.inr ⟨pStr_head ops q, pStr_no_dot ops q⟩
  · intro k hk
    simp only [timerDoc] at hk
    rw [mem_mapKeys_foldl] at hk
    rcases hk with hk | ⟨q, _, rfl⟩
    · exact Or.inl hk
    · exact Or.inr ⟨pStr_head ops q, pStr_no_dot ops q⟩

theorem changesOnly_assign_kind {F : Type} (tag : String) (val : Measure F → Value F) :
    ChangesOnly (fun m => mapAssign (mapAssign m "kind" (.str tag)) tag (val m)) tag := by
  intro m
  refine ⟨fun k hk ht => mapIndex_assign_kind m tag _ k hk ht, fun k => ?_⟩
  rw [mem_mapKeys_mapAssign, mem_mapKeys_mapAssign]
  tauto

/-- C17: each `Add` method changes only the key `"kind"` and the key named by its kind tag:
on every document, every other key reads as before (present with the same value, or
absent), and the keys afterwards are `"kind"`, the tag and the keys there were. -/
theorem C17_Add_frame {F : Type} (ops : Float64Ops F) (counter : Counter) (gauge : Gauge)
    (gauge64 : GaugeFloat64 F) (histogram : Histogram F) (meter : Meter F) (timer : Timer F)
    (percentiles : List F) :
    ChangesOnly (fun m : Measure F => AddCounter m counter) "counter" ∧
    ChangesOnly (fun m : Measure F => AddGauge m gauge) "gauge" ∧
    ChangesOnly (fun m : Measure F => AddGaugeFloat64 m gauge64) "gauge64" ∧
    ChangesOnly (fun m : Measure F => AddHistogram ops m histogram percentiles) "histogram" ∧
    ChangesOnly (fun m : Measure F => AddMeter m meter) "meter" ∧
    ChangesOnly (fun m : Measure F => AddTimer ops m timer percentiles) "timer" :=
  ⟨changesOnly_assign_kind "counter" _, changesOnly_assign_kind "gauge" _,
   changesOnly_assign_kind "gauge64" _, changesOnly_assign_kind "histogram" _,
   changesOnly_assign_kind "meter" _, changesOnly_assign_kind "timer" _⟩

/-- Every percentile of the list has its key in both nested documents. -/
theorem pStr_mem_docs {F : Type} (ops : Float64Ops F) (s : HistogramSnapshot F)
    (t : TimerSnapshot F) (ps : List F) (p : F) (hp : p ∈ ps) :
    pStr ops p ∈ mapKeys (histogramDoc ops s ps) ∧ pStr ops p ∈ mapKeys (timerDoc ops t ps) := by
  constructor
  · simp only [histogramDoc]
    rw [mem_mapKeys_foldl]
    exact Or.inr ⟨p, hp, rfl⟩
  · simp only [timerDoc]
    rw [mem_mapKeys_foldl]
    exact Or.inr ⟨p, hp, rfl⟩

/-- The two nested documents have the same keys. -/
theorem mapKeys_docs_iff {F : Type} (ops : Float64Ops F) (s : HistogramSnapshot F)
    (t : TimerSnapshot F) (ps : List F) (k : String) :
    k ∈ mapKeys (histogramDoc ops s ps) ↔ k ∈ mapKeys (timerDoc ops t ps) := by
  simp only [histogramDoc, timerDoc]
  rw [mem_mapKeys_foldl, mem_mapKeys_foldl]
  rfl

set_option maxRecDepth 100000 in
/-- The keys of the default percentiles, and the texts `%g` gives for their products with
100. -/
theorem pStr_defaultPercentiles :
    defaultPercentiles.map (fun p => Float64.fmtG (Float64.mul p (Float64.ofInt 100))) =
      ["50", "75", "95", "99", "99.9"] ∧
    defaultPercentiles.map (pStr float64Ops) = ["p50", "p75", "p95", "p99", "p99_9"] := by
  decide

/-- C12: the percentile key of `p` is `p` followed by the `%g` text of `p*100` with every
`.` replaced by `_`; `0.999` gives `p99_9` and `0.50` gives `p50`, and the default
percentiles give `p50`, `p75`, `p95`, `p99`, `p99_9`; `AddHistogram` and `AddTimer` write
the same key for every entry of the percentile list, and their nested documents have the
same keys. -/
theorem C12_percentile_keys {F : Type} (ops : Float64Ops F) (s : HistogramSnapshot F)
    (t : TimerSnapshot F) (ps : List F) :
    (∀ p, (pStr ops p).data =
      'p' :: (ops.fmtG (ops.mul p (ops.ofInt 100))).data.map
        (fun c => if c = '.' then '_' else c)) ∧
    (∀ p ∈ ps, pStr ops p ∈ mapKeys (histogramDoc ops s ps) ∧
      pStr ops p ∈ mapKeys (timerDoc ops t ps)) ∧
    (∀ k, k ∈ mapKeys (histogramDoc ops s ps) ↔ k ∈ mapKeys (timerDoc ops t ps)) ∧
    pStr float64Ops (roundRat false 999 1000) = "p99_9" ∧
    pStr float64Ops (roundRat false 50 100) = "p50" ∧
    defaultPercentiles.map (pStr float64Ops) = ["p50", "p75", "p95", "p99", "p99_9"] := by
  have hdef := pStr_defaultPercentiles.2
  have h999 : pStr float64Ops (roundRat false 999 1000) = "p99_9" := by
    have := congrArg (fun l => l[4]?) hdef
    simpa [defaultPercentiles] using this
  have h50 : pStr float64Ops (roundRat false 50 100) = "p50" := by
    have := congrArg (fun l => l[0]?) hdef
    simpa [defaultPercentiles] using this
  exact ⟨pStr_data ops, fun p hp => pStr_mem_docs ops s t ps p hp, mapKeys_docs_iff ops s t ps,
    h999, h50, hdef⟩

theorem mapIndex_foldl_const {α V : Type} (key : α → String) (c : V) (ps : List α)
    (base : List (String × V)) (k : String)
    (h : (∃ p ∈ ps, key p = k) ∨ mapIndex base k = some c) :
    mapIndex (ps.foldl (fun t p => mapAssign t (key p) c) base) k = some c := by
  induction ps generalizing base with
  | nil =>
    rcases h with ⟨p, hp, _⟩ | h
    · simp at hp
    · exact h
  | cons a as ih =>
    simp only [List.foldl_cons]
    apply ih
    by_cases hka : key a = k
    · right
      rw [← hka]
      exact mapIndex_mapAssign_self _ _ _
    · rcases h with ⟨p, hp, hpk⟩ | h
      · rcases List.mem_cons.mp hp with rfl | hp'
        · exact absurd hpk hka
        · exact Or.inl ⟨p, hp', hpk⟩
      · right
        rw [mapIndex_mapAssign_ne _ _ _ _ hka]
        exact h

set_option maxRecDepth 100000 in
/-- The millisecond conversion of the zero percentile is zero. -/
theorem duration_NilTimer (p : Float64) :
    duration float64Ops NilTimer.Snapshot p = Float64.zero := by
  have h0 : float64Ops.toInt64 (NilTimer.Snapshot.Percentile p) = 0 := by
    simp [float64Ops, NilTimer, Float64.toInt64, Float64.zero, -Nat.reducePow]
  unfold duration
  rw [h0]
  decide

/-- The six fixed keys of the nested document of a histogram read as without percentiles. -/
theorem mapIndex_histogramDoc_fixed {F : Type} (ops : Float64Ops F) (s : HistogramSnapshot F)
    (ps : List F) (k : String) (hk : k ∈ ["count", "max", "min", "mean", "stddev", "var"]) :
    mapIndex (histogramDoc ops s ps) k = mapIndex (histogramDoc ops s []) k := by
  simp only [histogramDoc]
  exact mapIndex_foldl_of_ne _ _ ps _ _ (fun q _ hq => pStr_not_fixed ops q (hq ▸ hk))

/-- The six fixed keys of the nested document of a timer read as without percentiles. -/
theorem mapIndex_timerDoc_fixed {F : Type} (ops : Float64Ops F) (s : TimerSnapshot F)
    (ps : List F) (k : String) (hk : k ∈ ["count", "max", "min", "mean", "stddev", "var"]) :
    mapIndex (timerDoc ops s ps) k = mapIndex (timerDoc ops s []) k := by
  simp only [timerDoc]
  exact mapIndex_foldl_of_ne _ _ ps _ _ (fun q _ hq => pStr_not_fixed ops q (hq ▸ hk))

/-- C13: for every percentile list, `AddHistogram` on the histogram without samples and
`AddTimer` on the timer without samples store a nested document with `count`, `max`, `min`
equal to 0, `mean`, `stddev`, `var` equal to 0.0 and the key of every percentile of the list
equal to 0.0, for the timer after the millisecond conversion. -/
theorem C13_zero_samples (ps : List Float64) :
    mapIndex (AddHistogram float64Ops [] NilHistogram ps) "histogram" =
      some (.obj (histogramDoc float64Ops NilHistogram.Snapshot ps)) ∧
    mapIndex (histogramDoc float64Ops NilHistogram.Snapshot ps) "count" = some (.int 0) ∧
    mapIndex (histogramDoc float64Ops NilHistogram.Snapshot ps) "max" = some (.int 0) ∧
    mapIndex (histogramDoc float64Ops NilHistogram.Snapshot ps) "min" = some (.int 0) ∧
    mapIndex (histogramDoc float64Ops NilHistogram.Snapshot ps) "mean" =
      some (.float Float64.zero) ∧
    mapIndex (histogramDoc float64Ops NilHistogram.Snapshot ps) "stddev" =
      some (.float Float64.zero) ∧
    mapIndex (histogramDoc float64Ops NilHistogram.Snapshot ps) "var" =
      some (.float Float64.zero) ∧
    (∀ p ∈ ps, mapIndex (histogramDoc float64Ops NilHistogram.Snapshot ps)
      (pStr float64Ops p) = some (.float Float64.zero)) ∧
    mapIndex (AddTimer float64Ops [] NilTimer ps) "timer" =
      some (.obj (timerDoc float64Ops NilTimer.Snapshot ps)) ∧
    mapIndex (timerDoc float64Ops NilTimer.Snapshot ps) "count" = some (.int 0) ∧
    mapIndex (timerDoc float64Ops NilTimer.Snapshot ps) "max" = some (.int 0) ∧
    mapIndex (timerDoc float64Ops NilTimer.Snapshot ps) "min" = some (.int 0) ∧
    mapIndex (timerDoc float64Ops NilTimer.Snapshot ps) "mean" = some (.float Float64.zero) ∧
    mapIndex (timerDoc float64Ops NilTimer.Snapshot ps) "stddev" =
      some (.float Float64.zero) ∧
    mapIndex (timerDoc float64Ops NilTimer.Snapshot ps) "var" = some (.float Float64.zero) ∧
    (∀ p ∈ ps, mapIndex (timerDoc float64Ops NilTimer.Snapshot ps) (pStr float64Ops p) =
      some (.float Float64.zero)) := by
  have hh : ∀ k ∈ ["count", "max", "min", "mean", "stddev", "var"],
      mapIndex (histogramDoc float64Ops NilHistogram.Snapshot ps) k =
        mapIndex (histogramDoc float64Ops NilHistogram.Snapshot []) k :=
    fun k hk => mapIndex_histogramDoc_fixed _ _ ps k hk
  have ht : ∀ k ∈ ["count", "max", "min", "mean", "stddev", "var"],
      mapIndex (timerDoc float64Ops NilTimer.Snapshot ps) k =
        mapIndex (timerDoc float64Ops NilTimer.Snapshot []) k :=
    fun k hk => mapIndex_timerDoc_fixed _ _ ps k hk
  have hdur : (fun (t : Doc Float64) p =>
      mapAssign t (pStr float64Ops p) (Value.float (duration float64Ops NilTimer.Snapshot p))) =
      fun t p => mapAssign t (pStr float64Ops p) (Value.float Float64.zero) := by
    funext t p
    rw [duration_NilTimer]
  refine ⟨mapIndex_assign_kind_tag _ _ _, ?_, ?_, ?_, ?_, ?_, ?_, ?_,
    mapIndex_assign_kind_tag _ _ _, ?_, ?_, ?_, ?_, ?_, ?_, ?_⟩
  · rw [hh _ (by simp)]; rfl
  · rw [hh _ (by simp)]; rfl
  · rw [hh _ (by simp)]; rfl
  · rw [hh _ (by simp)]; rfl
  · rw [hh _ (by simp)]; rfl
  · rw [hh _ (by simp)]; rfl
  · intro p hp
    simp only [histogramDoc]
    exact mapIndex_foldl_const (pStr float64Ops) (Value.float Float64.zero) ps _ _
      (Or.inl ⟨p, hp, rfl⟩)
  · rw [ht _ (by simp)]; rfl
  · rw [ht _ (by simp)]; rfl
  · rw [ht _ (by simp)]; rfl
  · rw [ht _ (by simp)]; rfl
  · rw [ht _ (by simp)]; rfl
  · rw [ht _ (by simp)]; rfl
  · intro p hp
    simp only [timerDoc]
    rw [hdur]
    exact mapIndex_foldl_const (pStr float64Ops) (Value.float Float64.zero) ps _ _
      (Or.inl ⟨p, hp, rfl⟩)

/-! ## Empty segments, enumeration order, values of no kind -/

theorem splitLoop_append_of_not_mem (sep : Char) (seg rest cur : List Char) (h : sep ∉ seg) :
    splitLoop sep cur (seg ++ rest) = splitLoop sep (seg.reverse ++ cur) rest := by
  induction seg generalizing cur with
  | nil => rfl
  | cons c cs ih =>
    simp only [List.mem_cons, not_or] at h
    have hc : ¬ c = sep := fun hh => h.1 hh.symm
    simp only [List.cons_append, splitLoop, hc, if_false, List.append_eq]
    rw [ih _ h.2]
    simp

/-- Splitting the join of segments without separator gives the segments back. -/
theorem splitLoop_intercalate (sep : Char) (segs : List (List Char)) (seg cur : List Char)
    (h : ∀ x ∈ seg :: segs, sep ∉ x) :
    splitLoop sep cur ([sep].intercalate (seg :: segs)) = (cur.reverse ++ seg) :: segs := by
  induction segs generalizing seg cur with
  | nil =>
    have := splitLoop_append_of_not_mem sep seg [] cur (h seg (List.mem_cons_self _ _))
    simp only [List.append_nil] at this
    simp [List.intercalate, this, splitLoop]
  | cons t ts ih =>
    have hseg := h seg (List.mem_cons_self _ _)
    have hrest : ∀ x ∈ t :: ts, sep ∉ x := fun x hx => h x (List.mem_cons_of_mem _ hx)
    have hcat : [sep].intercalate (seg :: t :: ts) = seg ++ sep :: [sep].intercalate (t :: ts) := by
      simp [List.intercalate]
    rw [hcat, splitLoop_append_of_not_mem sep seg _ cur hseg]
    simp only [splitLoop, if_true]
    rw [ih t [] hrest]
    simp

theorem intercalate_data (sep : Char) (segs : List String) :
    (String.intercalate (String.singleton sep) segs).data =
      [sep].intercalate (segs.map String.data) := by
  cases segs with
  | nil => rfl
  | cons a as =>
    simp only [String.intercalate, intercalate_go_data, List.map_cons]
    induction as generalizing a with
    | nil => simp [List.intercalate]
    | cons b bs ih =>
      have := ih b
      simp only [List.intercalate, List.intersperse_cons_cons, List.flatten_cons, List.map_cons]
        at this ⊢
      rw [← this]
      simp [String.singleton]

/-- Splitting the join of a non-empty list of segments without separator gives the segments
back, the empty ones included. -/
theorem Split_intercalate (sep : Char) (segs : List String) (hne : segs ≠ [])
    (h : ∀ x ∈ segs, sep ∉ x.data) :
    Split (String.intercalate (String.singleton sep) segs) sep = segs := by
  cases segs with
  | nil => exact absurd rfl hne
  | cons a as =>
    have h' : ∀ x ∈ a.data :: as.map String.data, sep ∉ x := by
      intro x hx
      rcases List.mem_cons.mp hx with rfl | hx
      · exact h a (List.mem_cons_self _ _)
      · obtain ⟨y, hy, rfl⟩ := List.mem_map.mp hx
        exact h y (List.mem_cons_of_mem _ hy)
    simp only [Split, intercalate_data, List.map_cons]
    rw [splitLoop_intercalate sep _ _ [] h']
    have hmk : ∀ l : List String, List.map (String.mk ∘ String.data) l = l := by
      intro l
      induction l with
      | nil => rfl
      | cons x xs ihx => simp [ihx]
    simp [hmk]

/-- C14: an empty segment is kept as an identifier holding the empty string. The name `""`
gives exactly `identifier0 = ""`; whenever the `i`-th segment of a name is empty,
`identifier{i}` holds `""`; and the name made of the segments `pre`, an empty segment and
the segments `post` gives `identifier{|pre|} = ""`, with the segments of `pre` before it
and those of `post` after it, each at its position. -/
theorem C14_empty_segments {F : Type} (pre post : List String)
    (h : ∀ x ∈ pre ++ "" :: post, '.' ∉ x.data) :
    NewMeasure "" ([] : Doc F) = [("identifier0", .str "")] ∧
    (∀ name i, (Split name '.')[i]? = some "" →
      mapIndex (NewMeasure name ([] : Doc F)) (identifierKey i) = some (.str "")) ∧
    Split (String.intercalate "." (pre ++ "" :: post)) '.' = pre ++ "" :: post ∧
    mapIndex (NewMeasure (String.intercalate "." (pre ++ "" :: post)) ([] : Doc F))
      (identifierKey pre.length) = some (.str "") ∧
    (∀ i, i < pre.length →
      mapIndex (NewMeasure (String.intercalate "." (pre ++ "" :: post)) ([] : Doc F))
        (identifierKey i) = (pre[i]?).map Value.str) ∧
    (∀ j, mapIndex (NewMeasure (String.intercalate "." (pre ++ "" :: post)) ([] : Doc F))
        (identifierKey (pre.length + 1 + j)) = (post[j]?).map Value.str) := by
  have hsplit : Split (String.intercalate "." (pre ++ "" :: post)) '.' = pre ++ "" :: post :=
    Split_intercalate '.' (pre ++ "" :: post) (by simp) h
  refine ⟨rfl, ?_, hsplit, ?_, ?_, ?_⟩
  · intro name i hi
    rw [NewMeasure_nil, mapIndex_identifierEntries, hi]
    rfl
  · rw [NewMeasure_nil, mapIndex_identifierEntries, hsplit,
      List.getElem?_append_right (Nat.le_refl _), Nat.sub_self, List.getElem?_cons_zero]
    rfl
  · intro i hi
    rw [NewMeasure_nil, mapIndex_identifierEntries, hsplit, List.getElem?_append_left hi]
  · intro j
    rw [NewMeasure_nil, mapIndex_identifierEntries, hsplit,
      List.getElem?_append_right (by omega)]
    have : pre.length + 1 + j - pre.length = j + 1 := by omega
    rw [this, List.getElem?_cons_succ]

theorem mapIndex_eq_some_iff {V : Type} (m : List (String × V)) (hnd : (mapKeys m).Nodup)
    (k : String) (v : V) : mapIndex m k = some v ↔ (k, v) ∈ m :=
  ⟨mem_of_mapIndex m k v, mapIndex_of_mem m hnd k v⟩

/-- Two enumerations of one map read the same at every key. -/
theorem mapIndex_perm {V : Type} (d₁ d₂ : List (String × V)) (hperm : d₁.Perm d₂)
    (hnd : (mapKeys d₁).Nodup) (k : String) : mapIndex d₁ k = mapIndex d₂ k := by
  have hnd₂ : (mapKeys d₂).Nodup := (hperm.map Prod.fst).nodup_iff.mp hnd
  cases h : mapIndex d₁ k with
  | some v =>
    have := hperm.mem_iff.mp (mem_of_mapIndex d₁ k v h)
    rw [mapIndex_of_mem d₂ hnd₂ k v this]
  | none =>
    have hk : k ∉ mapKeys d₂ := fun hmem =>
      (mapIndex_eq_none_iff d₁ k).mp h ((hperm.map Prod.fst).mem_iff.mpr hmem)
    rw [(mapIndex_eq_none_iff d₂ k).mpr hk]

theorem nodup_mapKeys_NewMeasure {F : Type} (name : String) (d : Doc F) :
    (mapKeys (NewMeasure name d)).Nodup := by
  rw [NewMeasure_eq]
  exact nodup_mapKeys_foldl Prod.fst Prod.snd d _ (nodup_identifierEntries name)

theorem mem_mapKeys_NewMeasure {F : Type} (name : String) (d : Doc F) (k : String) :
    k ∈ mapKeys (NewMeasure name d) ↔
      k ∈ mapKeys (identifierEntries name : Doc F) ∨ k ∈ mapKeys d := by
  rw [NewMeasure_eq]
  have := mem_mapKeys_foldl Prod.fst Prod.snd d (identifierEntries name : Doc F) k
  rw [this]
  simp only [mapKeys, List.mem_map]
  constructor
  · rintro (h | ⟨p, hp, rfl⟩)
    · exact Or.inl h
    · exact Or.inr ⟨p, hp, rfl⟩
  · rintro (h | ⟨p, hp, rfl⟩)
    · exact Or.inl h
    · exact Or.inr ⟨p, hp, rfl⟩

/-- C18: `NewMeasure` does not depend on the order in which the default values are visited.
For two enumerations `d₁`, `d₂` of one map, the documents read the same at every key and
have the same entries, and every key reads the value the default values give it, else
what the identifier document holds. -/
theorem C18_NewMeasure_order_independent {F : Type} (name : String) (d₁ d₂ : Doc F)
    (hperm : d₁.Perm d₂) (hnd : (mapKeys d₁).Nodup) :
    (∀ k, mapIndex (NewMeasure name d₁) k = mapIndex (NewMeasure name d₂) k) ∧
    (NewMeasure name d₁).Perm (NewMeasure name d₂) ∧
    (∀ k, mapIndex (NewMeasure name d₁) k =
      (mapIndex d₁ k).orElse (fun _ => mapIndex (NewMeasure name ([] : Doc F)) k)) := by
  have hnd₂ : (mapKeys d₂).Nodup := (hperm.map Prod.fst).nodup_iff.mp hnd
  have hread : ∀ k, mapIndex (NewMeasure name d₁) k = mapIndex (NewMeasure name d₂) k := by
    intro k
    rw [mapIndex_NewMeasure name d₁ hnd, mapIndex_NewMeasure name d₂ hnd₂,
      mapIndex_perm d₁ d₂ hperm hnd k]
  refine ⟨hread, ?_, ?_⟩
  · have h₁ := nodup_mapKeys_NewMeasure name d₁
    have h₂ := nodup_mapKeys_NewMeasure name d₂
    rw [List.perm_ext_iff_of_nodup (List.Nodup.of_map _ h₁) (List.Nodup.of_map _ h₂)]
    rintro ⟨k, v⟩
    rw [← mapIndex_eq_some_iff _ h₁, ← mapIndex_eq_some_iff _ h₂, hread]
  · intro k
    rw [mapIndex_NewMeasure name d₁ hnd, NewMeasure_nil]

theorem identifierKey_ne_kind (i : Nat) : identifierKey i ≠ "kind" := by
  intro h
  have h' := congrArg String.data h
  simp only [identifierKey, String.data_append] at h'
  have := congrArg List.head? h'
  simp at this

/-- When `FlushOnce` returns no error, every write made succeeded. -/
theorem sendLoop_writes_of_no_err {F σ ε : Type} (tr : Transport F σ ε) (ms : List (Measure F))
    (conn : σ) (herr : (sendLoop tr conn ms).err = none) :
    ∀ w ∈ (sendLoop tr conn ms).writes, w.2 = none := by
  intro w hw
  cases hw2 : w.2 with
  | none => rfl
  | some e =>
    have := (sendLoop_err_iff tr ms conn e).mpr ⟨w, hw, hw2⟩
    rw [herr] at this
    exact absurd this (by simp)

/-- C20: for a registered value of none of the six kinds, the measure `FlushOnce` builds is
exactly `NewMeasure(name, defaults)`: its keys are identifier keys and keys of the default
values, and `"kind"` is among them only when the default values have it. When that measure
serializes and `FlushOnce` returns no error, its payload is written, between the payloads
of the metrics before it and those of the metrics after it. -/
theorem C20_value_of_no_kind {F σ ε : Type} (ops : Float64Ops F) (tr : Transport F σ ε)
    (r : Reporter F) (conn : σ) (pre post : List (String × Metric F)) (name : String)
    (tag : Nat) (data : String)
    (hreg : r.Registry = pre ++ (name, .other tag) :: post)
    (hser : tr.Marshal (NewMeasure name r.DefaultValues) = some data)
    (herr : (FlushOnce ops tr r conn).err = none) :
    eachMeasure ops r name (.other tag) = NewMeasure name r.DefaultValues ∧
    (∀ k ∈ mapKeys (eachMeasure ops r name (.other tag)),
      (∃ i, i < (Split name '.').length ∧ k = identifierKey i) ∨ k ∈ mapKeys r.DefaultValues) ∧
    ("kind" ∈ mapKeys (eachMeasure ops r name (.other tag)) ↔
      "kind" ∈ mapKeys r.DefaultValues) ∧
    (FlushOnce ops tr r conn).writes =
      (((pre.map fun ni => eachMeasure ops r ni.1 ni.2).filterMap tr.Marshal).map
        fun b => (b, none)) ++ (data, none) ::
      (((post.map fun ni => eachMeasure ops r ni.1 ni.2).filterMap tr.Marshal).map
        fun b => (b, none)) := by
  have hkeys : ∀ k ∈ mapKeys (NewMeasure name r.DefaultValues),
      (∃ i, i < (Split name '.').length ∧ k = identifierKey i) ∨
        k ∈ mapKeys r.DefaultValues := by
    intro k hk
    rcases (mem_mapKeys_NewMeasure name r.DefaultValues k).mp hk with h | h
    · rw [mapKeys_identifierEntries] at h
      obtain ⟨i, hi, rfl⟩ := List.mem_map.mp h
      exact Or.inl ⟨i, List.mem_range.mp hi, rfl⟩
    · exact Or.inr h
  refine ⟨rfl, hkeys, ?_, ?_⟩
  · constructor
    · intro hk
      rcases hkeys "kind" hk with ⟨i, _, hi⟩ | h
      · exact absurd hi.symm (identifierKey_ne_kind i)
      · exact h
    · intro hk
      exact (mem_mapKeys_NewMeasure name r.DefaultValues "kind").mpr (Or.inr hk)
  · have hok := sendLoop_writes_of_no_err tr (collectMeasures ops r) conn herr
    have hfst := (sendLoop_ok tr (collectMeasures ops r) conn hok).2
    have hall : (FlushOnce ops tr r conn).writes =
        ((FlushOnce ops tr r conn).writes.map Prod.fst).map (fun b => (b, none)) := by
      rw [List.map_map]
      conv_lhs => rw [← List.map_id (FlushOnce ops tr r conn).writes]
      apply List.map_congr_left
      intro w hw
      have := hok w hw
      simp only [id, Function.comp]
      rw [← this]
    have hfst' : (FlushOnce ops tr r conn).writes.map Prod.fst =
        (collectMeasures ops r).filterMap tr.Marshal := hfst
    rw [hall, hfst', collectMeasures_eq, hreg]
    have hser' : tr.Marshal (eachMeasure ops r name (.other tag)) = some data := hser
    simp [List.filterMap_append, List.filterMap_cons, hser']

/-! ## `FlushEach` -/

/-- Once `FlushEach` has returned, ticks change nothing. -/
theorem foldl_eachCycle_returned {F σ ε P : Type} (ops : Float64Ops F) (tr : Transport F σ ε)
    (r : Reporter F) (ticks : List (Tick F P)) (st : EachState σ ε P)
    (h : st.returned = true) : ticks.foldl (eachCycle ops tr r) st = st := by
  induction ticks with
  | nil => rfl
  | cons t ts ih =>
    simp only [List.foldl_cons]
    have : eachCycle ops tr r st t = st := by simp [eachCycle, h]
    rw [this, ih]

theorem FlushEach_append {F σ ε P : Type} (ops : Float64Ops F) (tr : Transport F σ ε)
    (r : Reporter F) (conn : σ) (interval : Int) (h0 : 0 < interval)
    (pre post : List (Tick F P)) :
    FlushEach ops tr r conn interval (pre ++ post) =
      post.foldl (eachCycle ops tr r) (FlushEach ops tr r conn interval pre) := by
  have hi : ¬ interval ≤ 0 := by omega
  simp only [FlushEach, hi, if_false, List.foldl_append]

/-- While the loop runs, a tick calls `FlushOnce` on the connection as it stands, prints the
error if one is returned, and the loop goes on. -/
theorem eachCycle_flush {F σ ε P : Type} (ops : Float64Ops F) (tr : Transport F σ ε)
    (r : Reporter F) (st : EachState σ ε P) (hrun : st.returned = false)
    (registry : List (String × Metric F)) :
    (eachCycle ops tr r st (.flush registry)).returned = false ∧
    (eachCycle ops tr r st (.flush registry)).flushes = st.flushes + 1 ∧
    (eachCycle ops tr r st (.flush registry)).conn =
      (FlushOnce ops tr { r with Registry := registry } st.conn).conn ∧
    (eachCycle ops tr r st (.flush registry)).reports =
      st.reports ++ match (FlushOnce ops tr { r with Registry := registry } st.conn).err with
        | some err => [.error err]
        | none => [] := by
  cases herr : (FlushOnce ops tr { r with Registry := registry } st.conn).err with
  | none => simp [eachCycle, hrun, herr]
  | some e => simp [eachCycle, hrun, herr]

/-- When the send loop gets through a beginning of the measures without error, it leaves
the connection as the writes for that beginning leave it. -/
theorem sendLoop_take_conn {F σ ε : Type} (tr : Transport F σ ε) (ms : List (Measure F))
    (conn : σ) (n : Nat) (h : (sendLoop tr conn (ms.take n)).err = none) :
    (sendLoop tr conn (ms.take n)).writes.map Prod.fst = (ms.take n).filterMap tr.Marshal ∧
    ∀ w ∈ (sendLoop tr conn (ms.take n)).writes, w.2 = none :=
  ⟨(sendLoop_ok tr _ conn (sendLoop_writes_of_no_err tr _ conn h)).2,
   sendLoop_writes_of_no_err tr _ conn h⟩

/-- C15 (amended): a panic raised in `FlushOnce` during a cycle of `FlushEach` is caught by
the deferred function, which calls `handlePanic` when the value is not nil; the loop ends
there. `FlushEach` returns, and the ticks after the faulting cycle run no cycle: no call
of `FlushOnce`, no report, no write. The faulting cycle itself leaves the connection as
the writes made before the panic leave it: for a panic raised after the send loop has
dealt with `sent` measures, those are the successful writes of the measures among them
that serialize; for a panic raised while the measures are built, there are none. -/
theorem C15_FlushEach_fault_ends_loop {F σ ε P : Type} (ops : Float64Ops F)
    (tr : Transport F σ ε) (r : Reporter F) (conn : σ) (interval : Int) (h0 : 0 < interval)
    (pre post : List (Tick F P)) (registry : List (String × Metric F)) (sent : Nat)
    (rec : Option P)
    (hrun : (FlushEach ops tr r conn interval pre).returned = false)
    (hreach : (sendLoop tr (FlushEach ops tr r conn interval pre).conn
      ((collectMeasures ops { r with Registry := registry }).take sent)).err = none) :
    FlushEach ops tr r conn interval (pre ++ .fault registry sent rec :: post) =
      FlushEach ops tr r conn interval (pre ++ [.fault registry sent rec]) ∧
    (FlushEach ops tr r conn interval (pre ++ .fault registry sent rec :: post)).returned =
      true ∧
    (FlushEach ops tr r conn interval (pre ++ .fault registry sent rec :: post)).flushes =
      (FlushEach ops tr r conn interval pre).flushes + 1 ∧
    (FlushEach ops tr r conn interval (pre ++ .fault registry sent rec :: post)).conn =
      (sendLoop tr (FlushEach ops tr r conn interval pre).conn
        ((collectMeasures ops { r with Registry := registry }).take sent)).conn ∧
    (sendLoop tr (FlushEach ops tr r conn interval pre).conn
        ((collectMeasures ops { r with Registry := registry }).take sent)).writes =
      ((((registry.map fun ni => eachMeasure ops r ni.1 ni.2).take sent).filterMap
        tr.Marshal).map fun b => (b, none)) ∧
    (sent = 0 →
      (FlushEach ops tr r conn interval (pre ++ .fault registry sent rec :: post)).conn =
        (FlushEach ops tr r conn interval pre).conn) ∧
    (FlushEach ops tr r conn interval (pre ++ .fault registry sent rec :: post)).reports =
      (FlushEach ops tr r conn interval pre).reports ++
        match rec with
        | some v => [.fault v]
        | none => [] := by
  have hstep : (eachCycle ops tr r (FlushEach ops tr r conn interval pre)
      (.fault registry sent rec)).returned = true := by
    cases rec <;> simp [eachCycle, hrun, hreach]
  have heq : FlushEach ops tr r conn interval (pre ++ .fault registry sent rec :: post) =
      eachCycle ops tr r (FlushEach ops tr r conn interval pre)
        (.fault registry sent rec) := by
    rw [FlushEach_append ops tr r conn interval h0, List.foldl_cons,
      foldl_eachCycle_returned ops tr r post _ hstep]
  have heq1 : FlushEach ops tr r conn interval (pre ++ [.fault registry sent rec]) =
      eachCycle ops tr r (FlushEach ops tr r conn interval pre)
        (.fault registry sent rec) := by
    rw [FlushEach_append ops tr r conn interval h0]
    rfl
  have hconn : (eachCycle ops tr r (FlushEach ops tr r conn interval pre)
      (.fault registry sent rec)).conn =
      (sendLoop tr (FlushEach ops tr r conn interval pre).conn
        ((collectMeasures ops { r with Registry := registry }).take sent)).conn := by
    cases rec <;> simp [eachCycle, hrun, hreach]
  rw [heq]
  refine ⟨heq1.symm, hstep, ?_, hconn, ?_, ?_, ?_⟩
  · cases rec <;> simp [eachCycle, hrun, hreach]
  · obtain ⟨hfst, hnone⟩ := sendLoop_take_conn tr _ _ sent hreach
    have hall : ∀ (l : List (String × Option ε)), (∀ w ∈ l, w.2 = none) →
        l = (l.map Prod.fst).map (fun b => (b, none)) := by
      intro l hl
      induction l with
      | nil => rfl
      | cons a as ih =>
        have ha := hl a (List.mem_cons_self _ _)
        have := ih (fun w hw => hl w (List.mem_cons_of_mem _ hw))
        rw [List.map_cons, List.map_cons, ← this, ← ha]
    rw [hall _ hnone, hfst, collectMeasures_eq]
    rfl
  · intro hz
    rw [hconn, hz]
    rfl
  · cases rec <;> simp [eachCycle, hrun, hreach, handlePanic]

/-- C16: a cycle of `FlushEach` in which `FlushOnce` returns an error does not stop the
loop. The error is printed, `FlushEach` has not returned, and the next tick calls
`FlushOnce` again, on the connection the failed call left; and over any sequence of cycles
in which `FlushOnce` returns, with or without error, every tick runs its cycle and
`FlushEach` does not return. -/
theorem C16_FlushEach_error_continues {F σ ε P : Type} (ops : Float64Ops F)
    (tr : Transport F σ ε) (r : Reporter F) (conn : σ) (interval : Int) (h0 : 0 < interval)
    (pre : List (Tick F P)) (registry next : List (String × Metric F)) (e : ε)
    (hrun : (FlushEach ops tr r conn interval pre).returned = false)
    (herr : (FlushOnce ops tr { r with Registry := registry }
      (FlushEach ops tr r conn interval pre).conn).err = some e) :
    (FlushEach ops tr r conn interval (pre ++ [.flush registry])).returned = false ∧
    (FlushEach ops tr r conn interval (pre ++ [.flush registry])).reports =
      (FlushEach ops tr r conn interval pre).reports ++ [.error e] ∧
    (FlushEach ops tr r conn interval (pre ++ [.flush registry])).flushes =
      (FlushEach ops tr r conn interval pre).flushes + 1 ∧
    (FlushEach ops tr r conn interval (pre ++ [.flush registry, .flush next])).returned =
      false ∧
    (FlushEach ops tr r conn interval (pre ++ [.flush registry, .flush next])).flushes =
      (FlushEach ops tr r conn interval pre).flushes + 2 ∧
    (FlushEach ops tr r conn interval (pre ++ [.flush registry, .flush next])).conn =
      (FlushOnce ops tr { r with Registry := next }
        (FlushEach ops tr r conn interval (pre ++ [.flush registry])).conn).conn ∧
    (∀ registries : List (List (String × Metric F)),
      (FlushEach ops tr r conn interval
        (registries.map (Tick.flush : _ → Tick F P))).returned = false ∧
      (FlushEach ops tr r conn interval
        (registries.map (Tick.flush : _ → Tick F P))).flushes = registries.length) := by
  have h1 : FlushEach ops tr r conn interval (pre ++ [.flush registry]) =
      eachCycle ops tr r (FlushEach ops tr r conn interval pre) (.flush registry) := by
    rw [FlushEach_append ops tr r conn interval h0]
    rfl
  have hstep := eachCycle_flush ops tr r (FlushEach ops tr r conn interval pre) hrun registry
  rw [herr] at hstep
  have h2 : FlushEach ops tr r conn interval (pre ++ [.flush registry, .flush next]) =
      eachCycle ops tr r (FlushEach ops tr r conn interval (pre ++ [.flush registry]))
        (.flush next) := by
    rw [show pre ++ [Tick.flush registry, Tick.flush next] =
      (pre ++ [Tick.flush registry]) ++ [Tick.flush next] by simp,
      FlushEach_append ops tr r conn interval h0]
    rfl
  have hrun1 : (FlushEach ops tr r conn interval (pre ++ [.flush registry])).returned =
      false := by rw [h1]; exact hstep.1
  have hstep2 := eachCycle_flush ops tr r
    (FlushEach ops tr r conn interval (pre ++ [.flush registry])) hrun1 next
  refine ⟨hrun1, ?_, ?_, ?_, ?_, ?_, ?_⟩
  · rw [h1]; exact hstep.2.2.2
  · rw [h1]; exact hstep.2.1
  · rw [h2]; exact hstep2.1
  · rw [h2, hstep2.2.1, h1, hstep.2.1]
  · rw [h2]; exact hstep2.2.2.1
  · intro registries
    induction registries using List.reverseRecOn with
    | nil =>
      have hi : ¬ interval ≤ 0 := by omega
      simp [FlushEach, hi]
    | append_singleton rs reg ih =>
      rw [List.map_append, List.map_singleton, FlushEach_append ops tr r conn interval h0]
      have := eachCycle_flush ops tr r _ ih.1 reg
      simp only [List.foldl_cons, List.foldl_nil]
      refine ⟨this.1, ?_⟩
      rw [this.2.1, ih.2]
      simp

/-! ## The claims at concrete inputs -/

/-- C2 at the name `a.b` with a default value for `identifier0`: the default value replaces
the segment `a`. -/
theorem C2_NewMeasure_defaults_witness :
    (mapKeys ([("identifier0", .str "x"), ("client", .str "dummy-client")] : Doc Float64)).Nodup ∧
    mapIndex (NewMeasure "a.b" ([("identifier0", .str "x"), ("client", .str "dummy-client")] :
      Doc Float64)) "identifier0" = some (.str "x") :=
  ⟨by decide,
   (C2_NewMeasure_defaults "a.b" _ (by decide)).1 "identifier0" (.str "x")
     (List.mem_cons_self _ _)⟩

/-- C3 as stated fails: with the default values `kind = "doc"` and `counter = 0`, the
document built for the counter `dummycounter` at 6 holds `kind = "counter"` and
`counter = 6`, not the default values. -/
theorem C3_counterexample :
    mapIndex (eachMeasure float64Ops kindReporter "dummycounter" (.counter ⟨6⟩)) "kind" =
      some (.str "counter") ∧
    mapIndex (eachMeasure float64Ops kindReporter "dummycounter" (.counter ⟨6⟩)) "counter" =
      some (.int 6) ∧
    ¬ (∀ k v, (k, v) ∈ kindReporter.DefaultValues →
      mapIndex (eachMeasure float64Ops kindReporter "dummycounter" (.counter ⟨6⟩)) k =
        some v) := by
  have hkind : mapIndex (eachMeasure float64Ops kindReporter "dummycounter" (.counter ⟨6⟩))
      "kind" = some (.str "counter") := mapIndex_assign_kind_kind _ _ _ (by decide)
  refine ⟨hkind, mapIndex_assign_kind_tag _ _ _, fun hall => ?_⟩
  have h := hall "kind" (.str "doc") (by simp [kindReporter, kindDefaults])
  rw [hkind] at h
  simp at h

/-- C3 (amended) at the Reporter of the integration tests: the counter's document holds the
default value of `client`. -/
theorem C3_defaults_in_final_document_witness :
    (mapKeys testReporter.DefaultValues).Nodup ∧
    ("client", Value.str "dummy-client") ∈ testReporter.DefaultValues ∧
    "client" ≠ "kind" ∧
    kindOf (Metric.counter ⟨6⟩ : Metric Float64) ≠ some "client" ∧
    mapIndex (eachMeasure float64Ops testReporter "dummycounter" (.counter ⟨6⟩)) "client" =
      some (.str "dummy-client") :=
  ⟨by decide, List.mem_cons_self _ _, by decide, by decide,
   C3_defaults_in_final_document float64Ops testReporter (by decide) "dummycounter"
     (.counter ⟨6⟩) "client" (.str "dummy-client") (List.mem_cons_self _ _) (by decide)
     (by decide)⟩

/-- C4 at the Reporter of `TestFlushOnceKeepsPreviousValues` on an open connection: two
metrics, two writes, no error. -/
theorem C4_FlushOnce_one_datagram_per_metric_witness :
    (∀ ni ∈ testReporter.Registry,
      openConn.Marshal (eachMeasure float64Ops testReporter ni.1 ni.2) ≠ none) ∧
    (∀ w ∈ (FlushOnce float64Ops openConn testReporter 0).writes, w.2 = none) ∧
    (FlushOnce float64Ops openConn testReporter 0).err = none ∧
    (FlushOnce float64Ops openConn testReporter 0).writes.length = 2 :=
  ⟨by decide, by decide,
   (C4_FlushOnce_one_datagram_per_metric float64Ops openConn testReporter 0
     (by decide) (by decide)).1,
   (C4_FlushOnce_one_datagram_per_metric float64Ops openConn testReporter 0
     (by decide) (by decide)).2.1⟩

/-- C5 on a closed connection: the first write fails, its error is returned, and it is
the only write made. -/
theorem C5_FlushOnce_error_witness :
    (FlushOnce float64Ops closedConn testReporter 0).err =
      some "use of closed network connection" ∧
    ∃ pre ni post data, testReporter.Registry = pre ++ ni :: post ∧
      closedConn.Marshal (eachMeasure float64Ops testReporter ni.1 ni.2) = some data ∧
      (FlushOnce float64Ops closedConn testReporter 0).writes =
        ((pre.map fun ni => eachMeasure float64Ops testReporter ni.1 ni.2).filterMap
          closedConn.Marshal).map (fun b => (b, none)) ++
          [(data, some "use of closed network connection")] :=
  ⟨by decide,
   (C5_FlushOnce_error float64Ops closedConn testReporter 0).2
     "use of closed network connection" (by decide)⟩

/-- C6 at a registry whose second metric, a float gauge holding NaN, does not serialize:
the flush ends as on the registry without it. -/
theorem C6_FlushOnce_skips_unserializable_witness :
    nanReporter.Registry =
      [("dummycounter", .counter ⟨6⟩)] ++ ("ratio", .gaugeFloat64 ⟨.nan⟩) ::
        [("dummygauge", .gauge ⟨8⟩)] ∧
    openConn.Marshal (eachMeasure float64Ops nanReporter "ratio" (.gaugeFloat64 ⟨.nan⟩)) =
      none ∧
    FlushOnce float64Ops openConn nanReporter 0 =
      FlushOnce float64Ops openConn
        { nanReporter with
          Registry := [("dummycounter", .counter ⟨6⟩)] ++ [("dummygauge", .gauge ⟨8⟩)] } 0 :=
  ⟨rfl, by decide,
   (C6_FlushOnce_skips_unserializable float64Ops openConn nanReporter 0
     [("dummycounter", .counter ⟨6⟩)] [("dummygauge", .gauge ⟨8⟩)]
     ("ratio", .gaugeFloat64 ⟨.nan⟩) rfl (by decide)).1⟩

set_option maxRecDepth 100000 in
/-- The percentiles `0.95` and `0.9500000000000001` are distinct and have the same key.
In units of `2^-53`, `0.95` is 8556839292003942 and its successor is 8556839292003943;
their exact products with 100 are 40 below and 60 above 855683929200394240, which is 95;
the neighbours of 95 are 128 away, so both products, less than 64 from 95, round to 95. -/
theorem pStr_p95next :
    p95 = .fin false 8556839292003942 (-53) ∧ p95 ≠ p95next ∧
    Float64.mul p95 (Float64.ofInt 100) = Float64.ofInt 95 ∧
    Float64.mul p95next (Float64.ofInt 100) = Float64.ofInt 95 ∧
    pStr float64Ops p95 = "p95" ∧ pStr float64Ops p95next = "p95" := by
  decide

set_option maxRecDepth 100000 in
/-- C9 at the default percentiles: no percentile after `0.95` shares its key, and the key
of `0.95` holds the snapshot's percentile at `0.95`. -/
theorem C9_AddHistogram_document_witness :
    defaultPercentiles =
      [roundRat false 50 100, roundRat false 75 100] ++ p95 ::
        [roundRat false 99 100, roundRat false 999 1000] ∧
    (∀ q ∈ [roundRat false 99 100, roundRat false 999 1000],
      pStr float64Ops q ≠ pStr float64Ops p95) ∧
    mapIndex (histogramDoc float64Ops stepHistogram.Snapshot defaultPercentiles)
      (pStr float64Ops p95) = some (.float (stepHistogram.Snapshot.Percentile p95)) :=
  ⟨rfl, by decide,
   (C9_AddHistogram_document float64Ops [] stepHistogram defaultPercentiles).2.2.2.2.2.2.2.2.2
     [roundRat false 50 100, roundRat false 75 100] p95
     [roundRat false 99 100, roundRat false 999 1000] rfl (by decide)⟩

set_option maxRecDepth 100000 in
/-- C9 as stated fails: for the percentile list `0.95, 0.9500000000000001` both entries
have the key `p95`, which holds the percentile at `0.9500000000000001` (2), not the
percentile at `0.95` (1). -/
theorem C9_counterexample :
    p95 ≠ p95next ∧
    mapIndex (histogramDoc float64Ops stepHistogram.Snapshot [p95, p95next])
      (pStr float64Ops p95) = some (.float (Float64.ofInt 2)) ∧
    ¬ (∀ p ∈ [p95, p95next],
      mapIndex (histogramDoc float64Ops stepHistogram.Snapshot [p95, p95next])
        (pStr float64Ops p) = some (.float (stepHistogram.Snapshot.Percentile p))) := by
  have hkey : pStr float64Ops p95 = pStr float64Ops p95next := by
    rw [pStr_p95next.2.2.2.2.1, pStr_p95next.2.2.2.2.2]
  have hlast : mapIndex (histogramDoc float64Ops stepHistogram.Snapshot [p95, p95next])
      (pStr float64Ops p95next) =
      some (.float (stepHistogram.Snapshot.Percentile p95next)) := by
    simp only [histogramDoc]
    exact mapIndex_foldl_last (pStr float64Ops)
      (fun p => Value.float (stepHistogram.Snapshot.Percentile p)) [p95] [] p95next _
      (by simp)
  have hval : stepHistogram.Snapshot.Percentile p95next = Float64.ofInt 2 := by decide
  have hval' : stepHistogram.Snapshot.Percentile p95 = Float64.ofInt 1 := by decide
  rw [← hkey, hval] at hlast
  refine ⟨pStr_p95next.2.1, hlast, fun hall => ?_⟩
  have h := hall p95 (List.mem_cons_self _ _)
  rw [hlast, hval'] at h
  have h2 : Float64.ofInt 2 = Float64.ofInt 1 := by
    injection h with h
    injection h
  exact absurd h2 (by decide)

set_option maxRecDepth 100000 in
/-- C10 at the default percentiles: no percentile after `0.95` shares its key, and the key
of `0.95` holds the millisecond conversion of the snapshot's percentile at `0.95`. -/
theorem C10_AddTimer_document_witness :
    defaultPercentiles =
      [roundRat false 50 100, roundRat false 75 100] ++ p95 ::
        [roundRat false 99 100, roundRat false 999 1000] ∧
    (∀ q ∈ [roundRat false 99 100, roundRat false 999 1000],
      pStr float64Ops q ≠ pStr float64Ops p95) ∧
    mapIndex (timerDoc float64Ops stepTimer.Snapshot defaultPercentiles)
      (pStr float64Ops p95) =
      some (.float (float64Ops.mul (float64Ops.seconds (float64Ops.toInt64
        (stepTimer.Snapshot.Percentile p95))) (float64Ops.ofInt 1000))) :=
  ⟨rfl, by decide,
   (C10_AddTimer_document float64Ops [] stepTimer defaultPercentiles).2.2.2.2.2.2.2.2
     [roundRat false 50 100, roundRat false 75 100] p95
     [roundRat false 99 100, roundRat false 999 1000] rfl (by decide)⟩

set_option maxRecDepth 100000 in
/-- The millisecond conversions of one and two seconds. -/
theorem duration_stepTimer :
    duration float64Ops stepTimer.Snapshot p95 = Float64.ofInt 1000 ∧
    duration float64Ops stepTimer.Snapshot p95next = Float64.ofInt 2000 := by
  decide

set_option maxRecDepth 100000 in
/-- C10 as stated fails: for the percentile list `0.95, 0.9500000000000001` both entries
have the key `p95`, which holds the conversion of the percentile at `0.9500000000000001`
(2000 ms), not that of the percentile at `0.95` (1000 ms). -/
theorem C10_counterexample :
    p95 ≠ p95next ∧
    mapIndex (timerDoc float64Ops stepTimer.Snapshot [p95, p95next])
      (pStr float64Ops p95) = some (.float (Float64.ofInt 2000)) ∧
    ¬ (∀ p ∈ [p95, p95next],
      mapIndex (timerDoc float64Ops stepTimer.Snapshot [p95, p95next]) (pStr float64Ops p) =
        some (.float (float64Ops.mul (float64Ops.seconds (float64Ops.toInt64
          (stepTimer.Snapshot.Percentile p))) (float64Ops.ofInt 1000)))) := by
  have hkey : pStr float64Ops p95 = pStr float64Ops p95next := by
    rw [pStr_p95next.2.2.2.2.1, pStr_p95next.2.2.2.2.2]
  have hlast : mapIndex (timerDoc float64Ops stepTimer.Snapshot [p95, p95next])
      (pStr float64Ops p95next) =
      some (.float (duration float64Ops stepTimer.Snapshot p95next)) := by
    simp only [timerDoc]
    exact mapIndex_foldl_last (pStr float64Ops)
      (fun p => Value.float (duration float64Ops stepTimer.Snapshot p)) [p95] [] p95next _
      (by simp)
  rw [← hkey, duration_stepTimer.2] at hlast
  refine ⟨pStr_p95next.2.1, hlast, fun hall => ?_⟩
  have h := hall p95 (List.mem_cons_self _ _)
  have hd : float64Ops.mul (float64Ops.seconds (float64Ops.toInt64
      (stepTimer.Snapshot.Percentile p95))) (float64Ops.ofInt 1000) = Float64.ofInt 1000 :=
    duration_stepTimer.1
  rw [hlast, hd] at h
  have h2 : Float64.ofInt 2000 = Float64.ofInt 1000 := by
    injection h with h
    injection h
  exact absurd h2 (by decide)


set_option maxRecDepth 100000 in
/-- The expectations of `TestAddHistogram`, `TestAddTimer` and `TestAddMeter`. -/
theorem nil_metrics_documents :
    AddHistogram float64Ops [] NilHistogram defaultPercentiles =
      [("kind", .str "histogram"),
       ("histogram", .obj
        [("count", .int 0), ("max", .int 0), ("min", .int 0), ("mean", .float Float64.zero),
         ("stddev", .float Float64.zero), ("var", .float Float64.zero),
         ("p50", .float Float64.zero), ("p75", .float Float64.zero),
         ("p95", .float Float64.zero), ("p99", .float Float64.zero),
         ("p99_9", .float Float64.zero)])] ∧
    AddTimer float64Ops [] NilTimer defaultPercentiles =
      [("kind", .str "timer"),
       ("timer", .obj
        [("count", .int 0), ("max", .int 0), ("min", .int 0), ("mean", .float Float64.zero),
         ("stddev", .float Float64.zero), ("var", .float Float64.zero),
         ("p50", .float Float64.zero), ("p75", .float Float64.zero),
         ("p95", .float Float64.zero), ("p99", .float Float64.zero),
         ("p99_9", .float Float64.zero)])] ∧
    AddMeter ([] : Measure Float64) NilMeter =
      [("kind", .str "meter"),
       ("meter", .obj
        [("count", .int 0), ("rate1", .float Float64.zero), ("rate5", .float Float64.zero),
         ("rate15", .float Float64.zero), ("mean", .float Float64.zero)])] := by
  have hdur : (fun (t : Doc Float64) p =>
      mapAssign t (pStr float64Ops p) (Value.float (duration float64Ops NilTimer.Snapshot p))) =
      fun t p => mapAssign t (pStr float64Ops p) (Value.float Float64.zero) := by
    funext t p
    rw [duration_NilTimer]
  have ht : timerDoc float64Ops NilTimer.Snapshot defaultPercentiles =
      [("count", .int 0), ("max", .int 0), ("min", .int 0), ("mean", .float Float64.zero),
       ("stddev", .float Float64.zero), ("var", .float Float64.zero),
       ("p50", .float Float64.zero), ("p75", .float Float64.zero),
       ("p95", .float Float64.zero), ("p99", .float Float64.zero),
       ("p99_9", .float Float64.zero)] := by
    simp only [timerDoc]
    rw [hdur]
    rfl
  refine ⟨rfl, ?_, rfl⟩
  simp only [AddTimer]
  rw [ht]
  rfl

/-- Names with an empty segment in the middle, at the start and at the end. -/
theorem NewMeasure_empty_segment_examples :
    (NewMeasure "a..b" [] : Measure Float64) =
      [("identifier0", .str "a"), ("identifier1", .str ""), ("identifier2", .str "b")] ∧
    (NewMeasure ".a" [] : Measure Float64) =
      [("identifier0", .str ""), ("identifier1", .str "a")] ∧
    (NewMeasure "a." [] : Measure Float64) =
      [("identifier0", .str "a"), ("identifier1", .str "")] :=
  ⟨rfl, rfl, rfl⟩

/-- C12 at the default percentiles: the key of `0.95` is in both nested documents. -/
theorem C12_percentile_keys_witness :
    p95 ∈ defaultPercentiles ∧
    pStr float64Ops p95 ∈
      mapKeys (histogramDoc float64Ops NilHistogram.Snapshot defaultPercentiles) ∧
    pStr float64Ops p95 ∈ mapKeys (timerDoc float64Ops NilTimer.Snapshot defaultPercentiles) :=
  ⟨List.mem_cons_of_mem _ (List.mem_cons_of_mem _ (List.mem_cons_self _ _)),
   (C12_percentile_keys float64Ops NilHistogram.Snapshot NilTimer.Snapshot
     defaultPercentiles).2.1 p95
     (List.mem_cons_of_mem _ (List.mem_cons_of_mem _ (List.mem_cons_self _ _)))⟩

/-- C13 at the default percentiles: the key of `0.95` holds 0.0 in both nested documents. -/
theorem C13_zero_samples_witness :
    p95 ∈ defaultPercentiles ∧
    mapIndex (histogramDoc float64Ops NilHistogram.Snapshot defaultPercentiles)
      (pStr float64Ops p95) = some (.float Float64.zero) ∧
    mapIndex (timerDoc float64Ops NilTimer.Snapshot defaultPercentiles)
      (pStr float64Ops p95) = some (.float Float64.zero) :=
  ⟨List.mem_cons_of_mem _ (List.mem_cons_of_mem _ (List.mem_cons_self _ _)),
   (C13_zero_samples defaultPercentiles).2.2.2.2.2.2.2.1 p95
     (List.mem_cons_of_mem _ (List.mem_cons_of_mem _ (List.mem_cons_self _ _))),
   (C13_zero_samples defaultPercentiles).2.2.2.2.2.2.2.2.2.2.2.2.2.2.2 p95
     (List.mem_cons_of_mem _ (List.mem_cons_of_mem _ (List.mem_cons_self _ _)))⟩

/-- C14 at the name `a..b`: `identifier1` holds the empty segment and `identifier2` holds
`b`. -/
theorem C14_empty_segments_witness :
    (∀ x ∈ ["a"] ++ "" :: ["b"], '.' ∉ x.data) ∧
    String.intercalate "." (["a"] ++ "" :: ["b"]) = "a..b" ∧
    mapIndex (NewMeasure (String.intercalate "." (["a"] ++ "" :: ["b"])) ([] : Doc Float64))
      (identifierKey 1) = some (.str "") ∧
    mapIndex (NewMeasure (String.intercalate "." (["a"] ++ "" :: ["b"])) ([] : Doc Float64))
      (identifierKey 2) = some (.str "b") :=
  ⟨by decide, by decide,
   (C14_empty_segments (F := Float64) ["a"] ["b"] (by decide)).2.2.2.1,
   (C14_empty_segments (F := Float64) ["a"] ["b"] (by decide)).2.2.2.2.2 0⟩

/-- C15 as stated fails: when the first cycle panics after one datagram has been written,
`FlushEach` has returned, that datagram stays sent, and the tick that follows runs no
cycle. -/
theorem C15_counterexample :
    (FlushEach float64Ops openConn testReporter 0 1000000000
      [.fault testReporter.Registry 1 (some "boom"),
       .flush testReporter.Registry]).returned = true ∧
    (FlushEach float64Ops openConn testReporter 0 1000000000
      [.fault testReporter.Registry 1 (some "boom"),
       .flush testReporter.Registry]).flushes = 1 ∧
    (FlushEach float64Ops openConn testReporter 0 1000000000
      [.fault testReporter.Registry 1 (some "boom"),
       .flush testReporter.Registry]).conn = 1 ∧
    ¬ ((FlushEach float64Ops openConn testReporter 0 1000000000
        [.fault testReporter.Registry 1 (some "boom"),
         .flush testReporter.Registry]).returned = false ∧
      (FlushEach float64Ops openConn testReporter 0 1000000000
        [.fault testReporter.Registry 1 (some "boom"),
         .flush testReporter.Registry]).flushes = 2) := by
  decide

/-- C15 (amended) after one completed cycle: the second cycle panics after its first
datagram; the panic is reported, `FlushEach` returns with three datagrams sent in all, and
the third tick runs nothing. -/
theorem C15_FlushEach_fault_ends_loop_witness :
    (0 : Int) < 1000000000 ∧
    (FlushEach float64Ops openConn testReporter 0 1000000000
      ([.flush testReporter.Registry] : List (Tick Float64 String))).returned = false ∧
    (sendLoop openConn (FlushEach float64Ops openConn testReporter 0 1000000000
        ([.flush testReporter.Registry] : List (Tick Float64 String))).conn
      ((collectMeasures float64Ops
        { testReporter with Registry := testReporter.Registry }).take 1)).err = none ∧
    (FlushEach float64Ops openConn testReporter 0 1000000000
      ([.flush testReporter.Registry] ++ .fault testReporter.Registry 1 (some "boom") ::
        [.flush testReporter.Registry])).returned = true ∧
    (FlushEach float64Ops openConn testReporter 0 1000000000
      ([.flush testReporter.Registry] ++ .fault testReporter.Registry 1 (some "boom") ::
        [.flush testReporter.Registry])).flushes =
      (FlushEach float64Ops openConn testReporter 0 1000000000
        ([.flush testReporter.Registry] : List (Tick Float64 String))).flushes + 1 ∧
    (FlushEach float64Ops openConn testReporter 0 1000000000
      ([.flush testReporter.Registry] ++ .fault testReporter.Registry 1 (some "boom") ::
        [.flush testReporter.Registry])).conn = 3 :=
  ⟨by decide, by decide, by decide,
   (C15_FlushEach_fault_ends_loop float64Ops openConn testReporter 0 1000000000 (by decide)
     [.flush testReporter.Registry] [.flush testReporter.Registry] testReporter.Registry 1
     (some "boom") (by decide) (by decide)).2.1,
   (C15_FlushEach_fault_ends_loop float64Ops openConn testReporter 0 1000000000 (by decide)
     [.flush testReporter.Registry] [.flush testReporter.Registry] testReporter.Registry 1
     (some "boom") (by decide) (by decide)).2.2.1,
   by decide⟩

/-- C16 on a closed connection: the first cycle's error is printed, the loop has not
returned, and the second tick calls `FlushOnce` again. -/
theorem C16_FlushEach_error_continues_witness :
    (0 : Int) < 1000000000 ∧
    (FlushEach float64Ops closedConn testReporter 0 1000000000
      ([] : List (Tick Float64 String))).returned = false ∧
    (FlushOnce float64Ops closedConn { testReporter with Registry := testReporter.Registry }
      (FlushEach float64Ops closedConn testReporter 0 1000000000
        ([] : List (Tick Float64 String))).conn).err =
      some "use of closed network connection" ∧
    (FlushEach float64Ops closedConn testReporter 0 1000000000
      (([] : List (Tick Float64 String)) ++ [.flush testReporter.Registry])).reports =
      (FlushEach float64Ops closedConn testReporter 0 1000000000
        ([] : List (Tick Float64 String))).reports ++
        [.error "use of closed network connection"] ∧
    (FlushEach float64Ops closedConn testReporter 0 1000000000
      (([] : List (Tick Float64 String)) ++
        [.flush testReporter.Registry, .flush testReporter.Registry])).flushes =
      (FlushEach float64Ops closedConn testReporter 0 1000000000
        ([] : List (Tick Float64 String))).flushes + 2 :=
  ⟨by decide, by decide, by decide,
   (C16_FlushEach_error_continues float64Ops closedConn testReporter 0 1000000000
     (by decide) [] testReporter.Registry testReporter.Registry
     "use of closed network connection" (by decide) (by decide)).2.1,
   (C16_FlushEach_error_continues float64Ops closedConn testReporter 0 1000000000
     (by decide) [] testReporter.Registry testReporter.Registry
     "use of closed network connection" (by decide) (by decide)).2.2.2.2.1⟩

/-- C17 at the document of `dummycounter`: `AddCounter` leaves the default value of
`client` as it was. -/
theorem C17_Add_frame_witness :
    "client" ≠ "kind" ∧ "client" ≠ "counter" ∧
    mapIndex (AddCounter (NewMeasure "dummycounter" testDefaults) ⟨6⟩) "client" =
      mapIndex (NewMeasure "dummycounter" testDefaults) "client" :=
  ⟨by decide, by decide,
   ((C17_Add_frame float64Ops ⟨6⟩ ⟨8⟩ ⟨Float64.zero⟩ NilHistogram NilMeter NilTimer
     defaultPercentiles).1 (NewMeasure "dummycounter" testDefaults)).1 "client"
     (by decide) (by decide)⟩

/-- C18 at the default values of the integration tests, visited in either order. -/
theorem C18_NewMeasure_order_independent_witness :
    testDefaults.Perm [("metric", .str "doc"), ("client", .str "dummy-client")] ∧
    (mapKeys testDefaults).Nodup ∧
    (NewMeasure "dummycounter" testDefaults).Perm
      (NewMeasure "dummycounter" [("metric", .str "doc"), ("client", .str "dummy-client")]) :=
  ⟨List.Perm.swap _ _ _, by decide,
   (C18_NewMeasure_order_independent "dummycounter" testDefaults
     [("metric", .str "doc"), ("client", .str "dummy-client")] (List.Perm.swap _ _ _)
     (by decide)).2.1⟩

/-- C19 at the percentile `0.95`: its key is a key of the histogram's nested document, so
it is a fixed key or starts with `p` and has no `.`. -/
theorem C19_percentile_key_shape_witness :
    pStr float64Ops p95 ∈ mapKeys (histogramDoc float64Ops NilHistogram.Snapshot [p95]) ∧
    (pStr float64Ops p95 ∈ ["count", "max", "min", "mean", "stddev", "var"] ∨
      ((pStr float64Ops p95).data.head? = some 'p' ∧ '.' ∉ (pStr float64Ops p95).data)) :=
  ⟨(pStr_mem_docs float64Ops NilHistogram.Snapshot NilTimer.Snapshot [p95] p95
     (List.mem_cons_self _ _)).1,
   (C19_percentile_key_shape float64Ops p95 NilHistogram.Snapshot NilTimer.Snapshot
     [p95]).2.2.1 (pStr float64Ops p95)
     (pStr_mem_docs float64Ops NilHistogram.Snapshot NilTimer.Snapshot [p95] p95
       (List.mem_cons_self _ _)).1⟩

/-- C20 at a registry whose second value is of no kind: its payload lists identifier and
default-value keys only and is written between those of the counter and the gauge. -/
theorem C20_value_of_no_kind_witness :
    healthReporter.Registry =
      [("dummycounter", .counter ⟨6⟩)] ++ ("health", .other 0) ::
        [("dummygauge", .gauge ⟨8⟩)] ∧
    openConn.Marshal (NewMeasure "health" healthReporter.DefaultValues) =
      some "identifier0,client,metric" ∧
    (FlushOnce float64Ops openConn healthReporter 0).err = none ∧
    (FlushOnce float64Ops openConn healthReporter 0).writes =
      [("identifier0,client,metric,kind,counter", none), ("identifier0,client,metric", none),
       ("identifier0,client,metric,kind,gauge", none)] :=
  ⟨rfl, by decide, by decide,
   (C20_value_of_no_kind float64Ops openConn healthReporter 0
     [("dummycounter", .counter ⟨6⟩)] [("dummygauge", .gauge ⟨8⟩)] "health" 0
     "identifier0,client,metric" rfl (by decide) (by decide)).2.2.2⟩

end Logstash
